import Mathlib

/-!
Shallow embedding of the video downloader repository
(`video_downloader.py` and `video_downloader_app.py`).

External collaborators (the yt-dlp subprocess, ffmpeg, the filesystem and
the per-row time parser) are modelled as explicit environment records whose
fields give the outcome of each external call; every function of the
repository that the claims mention is translated into a pure Lean function
over those environments.  Python `float` seconds are modelled as `ℚ`;
Python strings as `String` with ASCII-level models of `.strip()`,
`.lower()`, `.splitlines()` and `in` (substring) written over `List Char`
so that all definitions are executable and kernel-decidable.
-/

/-! ### String helpers (models of the Python string operations used) -/

def ch_lower (c : Char) : Char :=
  if 'A' ≤ c ∧ c ≤ 'Z' then Char.ofNat (c.toNat + 32) else c

/-- Model of Python `str.lower()` (ASCII). -/
def str_lower (s : String) : String := ⟨s.data.map ch_lower⟩

def is_space_char (c : Char) : Bool := c == ' ' || c == '\t' || c == '\n' || c == '\r'

/-- Model of Python `str.strip()`. -/
def str_strip (s : String) : String :=
  ⟨((s.data.dropWhile is_space_char).reverse.dropWhile is_space_char).reverse⟩

def starts_with_chars : List Char → List Char → Bool
  | [], _ => true
  | _ :: _, [] => false
  | n :: ns, h :: hs => n == h && starts_with_chars ns hs

def has_substr (needle : List Char) : List Char → Bool
  | [] => starts_with_chars needle []
  | h :: hs => starts_with_chars needle (h :: hs) || has_substr needle hs

/-- Model of the check `"downloaded file is empty" in message.lower()`
used by `download_video` to decide the IPv4 retry. -/
def contains_empty_file (msg : String) : Bool :=
  has_substr "downloaded file is empty".data (str_lower msg).data

def split_on_char (sep : Char) : List Char → List (List Char)
  | [] => [[]]
  | c :: rest =>
    match split_on_char sep rest with
    | [] => [[c]]
    | cur :: done => if c == sep then [] :: cur :: done else (c :: cur) :: done

/-- Model of Python `str.splitlines()` (newline-separated, no trailing
empty segment). -/
def split_lines_py (s : String) : List String :=
  let parts := (split_on_char '\n' s.data).map (fun l => String.mk l)
  match parts.getLast? with
  | some "" => parts.dropLast
  | _ => parts

/-- Model of `pathlib.Path(s).name` for slash-separated path strings. -/
def path_name (s : String) : String :=
  match (split_on_char '/' s.data).reverse with
  | [] => s
  | last :: _ => String.mk last

/-- Model of Python `"; ".join(parts)`. -/
def join_semi : List String → String
  | [] => ""
  | [x] => x
  | x :: rest => x ++ "; " ++ join_semi rest

/-! ### Decimal rendering (model of Python `str(counter)` in f-strings) -/

def dec_digits : Nat → Nat → List Nat
  | _, 0 => []
  | 0, _ => []
  | fuel+1, n+1 => (n + 1) % 10 :: dec_digits fuel ((n + 1) / 10)

def of_dec_digits : List Nat → Nat
  | [] => 0
  | d :: rest => d + 10 * of_dec_digits rest

/-- Decimal rendering of a natural number (least-significant digit computed
first, then reversed), the model of Python `str(n)` for the numeric
suffixes produced by the archive and clip-path code. -/
def decRepr (n : Nat) : String :=
  if n = 0 then "0" else String.mk (((dec_digits n n).map Nat.digitChar).reverse)

/-! ### Filesystem paths

A produced media file is identified by its directory, stem and suffix;
`name` is the basename, as used by `Path.name` / `Path.stem` /
`Path.suffix` in the source. -/

structure MPath where
  dir : String
  stem : String
  suffix : String
deriving DecidableEq

def MPath.name (p : MPath) : String := p.stem ++ p.suffix

/-! ### video_downloader.py -/

def youtube_user_agent : String :=
  "Mozilla/5.0 (Windows NT 10.0; Win64; x64) AppleWebKit/537.36 (KHTML, like Gecko) Chrome/129.0.0.0 Safari/537.36"

def youtube_extractor_args : String := "youtube:player_client=android,web"

/-- Worker of `_sanitize_cli_args`: the Boolean state is Python's
`mask_next` flag. -/
def sanitize_go : List String → Bool → List String
  | [], _ => []
  | _ :: rest, true => "***" :: sanitize_go rest false
  | a :: rest, false => a :: sanitize_go rest (a == "--password")

/-- `_sanitize_cli_args`: mask sensitive values for logging CLI
invocations. -/
def sanitize_cli_args (args : List String) : List String := sanitize_go args false

/-- Final `mask_next` state after `sanitize_go` consumes a list
(used only in proofs about `sanitize_cli_args`). -/
def sanitize_state : List String → Bool → Bool
  | [], m => m
  | _ :: rest, true => sanitize_state rest false
  | a :: rest, false => sanitize_state rest (a == "--password")

/-- Modelled from the spec claim wording (refinement comparison for the
sanitizer): replace the element immediately following each
`"--password"` element by `"***"` and leave all other elements
unchanged. -/
def claim_mask (args : List String) : List String :=
  (args.zip (none :: args.map some)).map
    (fun pr => if pr.2 = some "--password" then "***" else pr.1)

/-- `_build_cli_command`: assemble the yt-dlp CLI command.  Optional
strings follow Python truthiness: an empty string behaves like an absent
value wherever the source tests `if value:`. -/
def build_cli_command (ytDlpExe : Option String) (sysExecutable : String)
    (url template : String) (use_ffmpeg : Bool) (ffmpegLocation : Option String)
    (cookies_path : Option String) (username password : Option String)
    (extra_flags : List String) : List String :=
  let base :=
    match ytDlpExe with
    | some exe => [exe]
    | none => [sysExecutable, "-m", "yt_dlp"]
  let format_selector := if use_ffmpeg then "bv*+ba/b" else "best"
  let cmd1 := base ++ [url, "-f", format_selector, "--no-playlist",
    "--no-write-info-json", "--no-simulate", "--no-abort-on-error", "--no-part",
    "--force-overwrites", "--user-agent", youtube_user_agent,
    "--extractor-args", youtube_extractor_args, "-o", template,
    "--print", "after_move:filepath"]
  let cmd2 :=
    if use_ffmpeg then
      cmd1 ++ ["--merge-output-format", "mp4"] ++
        (match ffmpegLocation with
         | some loc => if loc = "" then [] else ["--ffmpeg-location", loc]
         | none => [])
    else cmd1
  let cmd3 :=
    match cookies_path with
    | some c => cmd2 ++ ["--cookies", c]
    | none => cmd2
  let cmd4 :=
    match username with
    | some u =>
      if u = "" then cmd3
      else cmd3 ++ ["--username", u] ++
        (match password with
         | some pw => if pw = "" then [] else ["--password", pw]
         | none => [])
    | none => cmd3
  cmd4 ++ extra_flags

/-- Observable filesystem side effects of the modelled functions. -/
inductive Effect where
  | unlink (path : String)
  | replace (tempName sourceName : String)
deriving DecidableEq

/-- Worker of `_parse_filepath_from_output`, walking the reversed output
lines.  `Path(candidate).parts` being nonempty is modelled as the stripped
candidate being nonempty. -/
def parse_lines_go (exists_ : String → Bool) : List String → Option String
  | [] => none
  | line :: rest =>
    let candidate := str_strip line
    if candidate = "" then parse_lines_go exists_ rest
    else if starts_with_chars "yt-dlp".data (str_lower candidate).data then
      parse_lines_go exists_ rest
    else if exists_ candidate then some candidate
    else if candidate ≠ "" then some candidate
    else parse_lines_go exists_ rest

/-- `_parse_filepath_from_output`: extract the final filepath emitted via
`--print after_move:filepath`. -/
def parse_filepath_from_output (exists_ : String → Bool) (output : String) : Option String :=
  parse_lines_go exists_ (split_lines_py output).reverse

/-- Filesystem environment for `_run_cli_download`: which paths exist,
the reported `stat` size (`none` models an `OSError`), and whether
deleting the empty file raises. -/
structure CliEnv where
  fileExists : String → Bool
  fileSize : String → Option Nat
  unlinkRaises : Bool

/-- `_run_cli_download`: given the subprocess exit code and captured
output, produce the reported file path, the error message and the
filesystem effects.  Mirrors the source: nonzero exit, missing output
file, unreadable file, and the zero-size case that deletes the file and
reports "The downloaded file is empty". -/
def run_cli_download (env : CliEnv) (output_dir : String) (returncode : Int)
    (stdout stderr : String) : Option String × Option String × List Effect :=
  if returncode ≠ 0 then
    let message :=
      if str_strip stderr ≠ "" then str_strip stderr
      else if str_strip stdout ≠ "" then str_strip stdout
      else "yt-dlp exited with code " ++ toString returncode
    (none, some message, [])
  else
    let parsed := parse_filepath_from_output env.fileExists stdout
    let file_path :=
      match parsed with
      | some p =>
        if env.fileExists p then some p
        else
          let potential := output_dir ++ "/" ++ path_name p
          if env.fileExists potential then some potential else some p
      | none => none
    match file_path with
    | none => (none, some "yt-dlp did not report an output file.", [])
    | some p =>
      if ¬ env.fileExists p then (none, some "yt-dlp did not report an output file.", [])
      else
        match env.fileSize p with
        | none => (none, some ("Unable to access downloaded file " ++ p), [])
        | some size =>
          if size = 0 then
            (none, some "The downloaded file is empty",
              if env.unlinkRaises then [] else [Effect.unlink p])
          else (some p, none, [])

/-- `_next_clip_path`: the first candidate is `stem_clip` with the
suffix defaulted to `.mp4` when empty; the k-th fallback candidate is
`stem_clip_k` with the original (possibly empty) suffix.
`collisions` abstracts the filesystem: it is the number of leading
candidates that already exist, so the `while candidate.exists()` loop
stops at candidate number `collisions`. -/
def next_clip_path (collisions : Nat) (source : MPath) : MPath :=
  if collisions = 0 then
    { source with
        stem := source.stem ++ "_clip",
        suffix := if source.suffix = "" then ".mp4" else source.suffix }
  else
    { source with stem := source.stem ++ "_clip_" ++ decRepr collisions }

/-- Environment of one `_clip_media` invocation: whether the source file
exists, how many clip-path candidates already exist, whether the ffmpeg
subprocess exits zero, whether the temp file exists after a failed run,
and whether `unlink` / `replace` raise `OSError`. -/
structure ClipWorld where
  sourceExists : Bool
  clipCollisions : Nat
  ffmpegExitZero : Bool
  tempExistsAfterFail : Bool
  unlinkRaises : Bool
  replaceRaises : Bool

/-- `_clip_media`: requires ffmpeg and an existing source, rejects a
nonpositive duration, runs ffmpeg into a temporary sibling path, removes
the temp file on failure, and otherwise renames it over the source. -/
def clip_media (ffmpegAvailable : Bool) (w : ClipWorld) (source : MPath)
    (start stop : Option ℚ) : Option MPath × List Effect :=
  if ¬ ffmpegAvailable then (none, [])
  else if ¬ w.sourceExists then (none, [])
  else
    let temp_target := next_clip_path w.clipCollisions source
    let duration_nonpositive : Bool :=
      match stop with
      | some e =>
        let duration : ℚ := match start with | some s => e - s | none => e
        decide (duration ≤ 0)
      | none => false
    if duration_nonpositive then (none, [])
    else if ¬ w.ffmpegExitZero then
      (none, if w.tempExistsAfterFail && !w.unlinkRaises then [Effect.unlink temp_target.name] else [])
    else if w.replaceRaises then
      (none, if !w.unlinkRaises then [Effect.unlink temp_target.name] else [])
    else (some source, [Effect.replace temp_target.name source.name])

/-- Clip-bound validation of `download_video` (lines 378-407): start must
be nonnegative, end positive, and end greater than start, checked in that
order; the result is the logged error message, `none` when validation
passes. -/
def validate_clip (clip_start clip_end : Option ℚ) : Option String :=
  if (match clip_start with | some s => decide (s < 0) | none => false) then
    some "Clip start time must be zero or positive."
  else if (match clip_end with | some e => decide (e ≤ 0) | none => false) then
    some "Clip end time must be greater than zero."
  else if (match clip_start, clip_end with
           | some s, some e => decide (e ≤ s)
           | _, _ => false) then
    some "Clip end time must be greater than clip start time."
  else none

/-- Outcome of one yt-dlp CLI invocation, abstracting
`_run_cli_download`: a produced file path, or an error message. -/
inductive RunOutcome where
  | ok (path : String)
  | err (message : String)
deriving DecidableEq

/-- External world of one `download_video` call: the outcome of the
CLI invocation per (attempt index, full command), the `_clip_media`
environment, and the interpretation of a path string as an `MPath`. -/
structure DownloadWorld where
  run : Nat → List String → RunOutcome
  clipWorld : ClipWorld
  pathOf : String → MPath

/-- Request parameters of `download_video` together with the facts about
the environment that option resolution reads (whether the cookies file
exists). -/
structure DVParams where
  ytDlpExe : Option String
  sysExecutable : String
  url : String
  output_dir : String
  filename : Option String
  ffmpegLocation : Option String
  cookies : Option String
  cookiesExists : Bool
  username : Option String
  password : Option String

/-- Python `value or default` on an optional string. -/
def py_or (v : Option String) (dflt : String) : String :=
  match v with
  | some s => if s = "" then dflt else s
  | none => dflt

def dv_template (p : DVParams) : String :=
  p.output_dir ++ "/" ++ py_or p.filename "%(title)s.%(ext)s"

/-- Cookie resolution of `download_video`: a missing cookies file is
dropped (non-fatal). -/
def dv_resolved_cookies (p : DVParams) : Option String :=
  match p.cookies with
  | some c => if p.cookiesExists then some c else none
  | none => none

/-- Credential resolution of `download_video`: the username is passed
through; the password is kept only when a (truthy) username is present. -/
def dv_auth (p : DVParams) : Option String × Option String :=
  (p.username,
   match p.username with
   | some u =>
     if u = "" then none
     else
       match p.password with
       | some pw => if pw = "" then none else some pw
       | none => none
   | none => none)

/-- The full CLI command `download_video` builds for one attempt. -/
def dv_command (p : DVParams) (ffmpegAvailable : Bool) (extra_flags : List String) : List String :=
  build_cli_command p.ytDlpExe p.sysExecutable p.url (dv_template p) ffmpegAvailable
    p.ffmpegLocation (dv_resolved_cookies p) (dv_auth p).1 (dv_auth p).2 extra_flags

def ipv4_flags : List String := ["--force-ipv4", "--http-chunk-size", "1048576"]

def attempt_configs : List (String × List String) := [("initial", []), ("ipv4", ipv4_flags)]

/-- Observable outcome of a `download_video` call: the returned path, the
full CLI command of every attempt actually invoked (in order), the logged
error messages, and the filesystem effects of clipping. -/
structure DVResult where
  result : Option String
  attempts : List (List String)
  errors : List String
  effects : List Effect
deriving DecidableEq

def err_or_unknown (msg : String) : String :=
  if msg = "" then "Unknown download error." else msg

/-- The attempt loop of `download_video` (lines 414-476): iterate over
`attempt_configs`; past the first attempt, continue only when the last
error message contains "downloaded file is empty"; on success optionally
clip (a clipping failure makes the whole call fail); on a first-attempt
empty-file error retry, otherwise log and stop. -/
def download_loop (w : DownloadWorld) (mk_cmd : List String → List String)
    (ffmpegAvailable : Bool) (clip_start clip_end : Option ℚ) :
    Nat → Option String → List (String × List String) → DVResult
  | _, lastErr, [] =>
    { result := none, attempts := [], errors := lastErr.toList, effects := [] }
  | idx, lastErr, (_, flags) :: rest =>
    if decide (0 < idx) && !(match lastErr with | some m => contains_empty_file m | none => false) then
      { result := none, attempts := [], errors := lastErr.toList, effects := [] }
    else
      let command := mk_cmd flags
      match w.run idx command with
      | RunOutcome.ok path =>
        if clip_start.isSome || clip_end.isSome then
          match clip_media ffmpegAvailable w.clipWorld (w.pathOf path) clip_start clip_end with
          | (none, effs) =>
            { result := none, attempts := [command],
              errors := ["Clipping failed; keeping original download but reporting failure."],
              effects := effs }
          | (some _, effs) =>
            { result := some path, attempts := [command], errors := [], effects := effs }
        else { result := some path, attempts := [command], errors := [], effects := [] }
      | RunOutcome.err msg =>
        let lastErr2 := err_or_unknown msg
        if idx = 0 && contains_empty_file lastErr2 then
          let out := download_loop w mk_cmd ffmpegAvailable clip_start clip_end
            (idx + 1) (some lastErr2) rest
          { out with attempts := command :: out.attempts }
        else
          { result := none, attempts := [command], errors := [lastErr2], effects := [] }

/-- `download_video`: create the output directory, resolve options,
validate clip bounds, then run the attempt loop. -/
def download_video (w : DownloadWorld) (p : DVParams) (mkdir_ok ffmpegAvailable : Bool)
    (clip_start clip_end : Option ℚ) : DVResult :=
  if !mkdir_ok then
    { result := none, attempts := [],
      errors := ["Unable to create output directory."], effects := [] }
  else
    match validate_clip clip_start clip_end with
    | some msg => { result := none, attempts := [], errors := [msg], effects := [] }
    | none =>
      download_loop w (dv_command p ffmpegAvailable) ffmpegAvailable clip_start clip_end
        0 none attempt_configs

/-! ### video_downloader_app.py (batch processing) -/

/-- A CSV row as produced by `csv.DictReader`: an association list from
header names to cell values. -/
abbrev Row := List (String × String)

/-- Python `row.get(key)`. -/
def row_get (row : Row) (key : String) : Option String :=
  (row.find? (fun kv => kv.1 == key)).map (fun kv => kv.2)

/-- Python `row[key] = value` on a dict (keys are unique in a
`DictReader` row). -/
def row_set (row : Row) (key value : String) : Row :=
  if (row.find? (fun kv => kv.1 == key)).isSome then
    row.map (fun kv => if kv.1 == key then (kv.1, value) else kv)
  else row ++ [(key, value)]

def completed_status_values : List String := ["downloaded", "success"]

/-- The bookkeeping column names carried in the batch context. -/
structure BatchCols where
  url_column : String
  skip_column : Option String
  status_column : String
  detail_column : String
  path_column : String
  timestamp_column : String

/-- `set_row_status` inside `_process_batch`. -/
def set_row_status (cols : BatchCols) (ts : String) (row : Row)
    (status detail : String) (path_value : Option String) : Row :=
  let r1 := row_set row cols.status_column status
  let r2 := row_set r1 cols.detail_column detail
  let r3 := row_set r2 cols.path_column (match path_value with | some pv => pv | none => "")
  row_set r3 cols.timestamp_column ts

/-- External world of one `_process_batch` call: ffmpeg availability, the
`parse_time_to_seconds` collaborator, the outcome of `download_video` per
row index, the timestamp, and the filesystem view used at archive time. -/
structure BatchEnv where
  ffmpegAvailable : Bool
  parseTime : String → Option ℚ
  dl : Nat → Option String
  timestamp : String
  fileExists : String → Bool
  pathOf : String → MPath

/-- Row clip start as read by `_process_batch` (line 392): the exact
column key "Clip Start Time", stripped. -/
def clip_start_raw_of (row : Row) : String :=
  str_strip ((row_get row "Clip Start Time").getD "")

/-- Row clip end as read by `_process_batch` (line 393): the exact
column key "Clip End Time", stripped. -/
def clip_end_raw_of (row : Row) : String :=
  str_strip ((row_get row "Clip End Time").getD "")

def row_clip_bounds (env : BatchEnv) (row : Row) : Option ℚ × Option ℚ :=
  ((if clip_start_raw_of row = "" then none else env.parseTime (clip_start_raw_of row)),
   (if clip_end_raw_of row = "" then none else env.parseTime (clip_end_raw_of row)))

/-- The per-row clip validation messages of `_process_batch`
(lines 396-413), in source order. -/
def row_clip_errors (env : BatchEnv) (row : Row) : List String :=
  let csr := clip_start_raw_of row
  let cer := clip_end_raw_of row
  let bounds := row_clip_bounds env row
  (if csr ≠ "" ∧ (env.parseTime csr).isNone then ["Invalid clip start time value."] else []) ++
  (if cer ≠ "" ∧ (env.parseTime cer).isNone then ["Invalid clip end time value."] else []) ++
  (match bounds.1, bounds.2 with
   | some s, some e => if e ≤ s then ["Clip end time must be greater than clip start time."] else []
   | _, _ => []) ++
  (if (bounds.1.isSome ∨ bounds.2.isSome) ∧ ¬ env.ffmpegAvailable then
    ["ffmpeg not available for clipping."]
  else [])

/-- Outcome of handling one batch row: recorded status and detail, the
recorded output path, and whether `download_video` was invoked. -/
structure RowStep where
  status : String
  detail : String
  path_value : Option String
  invoked : Bool
deriving DecidableEq

/-- The per-row policy of `_process_batch` (lines 329-459), in source
order: skip-completed, explicit skip marker, missing URL, clip
validation, then the download itself. -/
def process_row (env : BatchEnv) (cols : BatchCols) (skip_completed : Bool)
    (zero_idx : Nat) (row : Row) : RowStep :=
  let existing_status := str_lower (str_strip ((row_get row cols.status_column).getD ""))
  let existing_path_truthy : Bool :=
    match row_get row cols.path_column with
    | some s => s != ""
    | none => false
  if skip_completed && completed_status_values.contains existing_status && existing_path_truthy then
    { status := "skipped", detail := "Already marked as downloaded in CSV.",
      path_value := none, invoked := false }
  else
    let skip_flag : Bool :=
      match cols.skip_column with
      | some sc => ["1", "true", "yes", "skip"].contains (str_lower (str_strip ((row_get row sc).getD "")))
      | none => false
    if skip_flag then
      { status := "skipped", detail := "Marked to skip via CSV.", path_value := none, invoked := false }
    else
      let url_value := str_strip ((row_get row cols.url_column).getD "")
      if url_value = "" then
        { status := "skipped", detail := "Missing URL value.", path_value := none, invoked := false }
      else
        let errs := row_clip_errors env row
        if errs ≠ [] then
          { status := "failed", detail := join_semi errs, path_value := none, invoked := false }
        else
          match env.dl zero_idx with
          | some saved =>
            { status := "downloaded", detail := saved, path_value := some saved, invoked := true }
          | none =>
            { status := "failed", detail := "Download failed.", path_value := none, invoked := true }

/-- Result of the row loop of one `_process_batch` call. -/
structure BatchLoopOut where
  results : List (Nat × String × String)
  next_row : Nat
  pause_triggered : Bool
  rows_out : List Row
  invocations : Nat

/-- The row loop of `_process_batch` (lines 324-467): handle rows in
order, update each row in place, advance the cursor after every row, and
stop once the number of rows handled in this call reaches a positive
pause limit. -/
def process_rows_loop (env : BatchEnv) (cols : BatchCols) (pause_limit : Nat)
    (skip_completed : Bool) : List Row → Nat → Nat → BatchLoopOut
  | [], zero_idx, _ =>
    { results := [], next_row := zero_idx, pause_triggered := false,
      rows_out := [], invocations := 0 }
  | row :: rest, zero_idx, processed_before =>
    let processed_in_run := processed_before + 1
    let step := process_row env cols skip_completed zero_idx row
    let row2 := set_row_status cols env.timestamp row step.status step.detail step.path_value
    let entry := (zero_idx + 1, step.status, step.detail)
    let inv := if step.invoked then 1 else 0
    if pause_limit ≠ 0 ∧ pause_limit ≤ processed_in_run then
      { results := [entry], next_row := zero_idx + 1, pause_triggered := true,
        rows_out := row2 :: rest, invocations := inv }
    else
      let out := process_rows_loop env cols pause_limit skip_completed rest
        (zero_idx + 1) processed_in_run
      { results := entry :: out.results, next_row := out.next_row,
        pause_triggered := out.pause_triggered, rows_out := row2 :: out.rows_out,
        invocations := inv + out.invocations }

/-- Files collected for the archive (lines 513-520): rows whose status is
`downloaded` with a truthy recorded path that exists on disk. -/
def successful_paths (env : BatchEnv) (cols : BatchCols) (rows : List Row) : List String :=
  rows.filterMap (fun row =>
    if str_lower (str_strip ((row_get row cols.status_column).getD "")) = "downloaded" then
      match row_get row cols.path_column with
      | some pv => if pv ≠ "" ∧ env.fileExists pv then some pv else none
      | none => none
    else none)

/-- The k-th collision candidate for an archive entry name:
`stem_k` with the original suffix. -/
def arc_candidate (p : MPath) (k : Nat) : String :=
  p.stem ++ "_" ++ decRepr k ++ p.suffix

/-- Fuel-bounded search of the `while True` counter loop (lines 536-541);
the fuel `used.length + 1` given below is provably sufficient. -/
def fresh_arc_go (p : MPath) (used : List String) : Nat → Nat → String
  | 0, k => arc_candidate p k
  | fuel+1, k =>
    if arc_candidate p k ∈ used then fresh_arc_go p used fuel (k + 1)
    else arc_candidate p k

/-- The name chosen for a colliding archive entry: the first candidate
`stem_k` (k = 1, 2, ...) not yet used. -/
def fresh_arcname (used : List String) (p : MPath) : String :=
  fresh_arc_go p used (used.length + 1) 1

/-- The arcname assignment loop of the archive writer (lines 529-544),
threading the `used_names` set. -/
def zip_go : List MPath → List String → List String
  | [], _ => []
  | p :: rest, used =>
    let arc := if p.name ∈ used then fresh_arcname used p else p.name
    arc :: zip_go rest (arc :: used)

def zip_arcnames (paths : List MPath) : List String := zip_go paths []

/-- Observable outcome of one `_process_batch` call. -/
structure BatchOutcome where
  results : List (Nat × String × String)
  next_row : Nat
  pause_triggered : Bool
  rows : List Row
  invocations : Nat
  remaining_rows : Nat
  zip_paths : List String
  zip_names : List String

/-- `_process_batch`: run the row loop from the stored cursor, set the
final cursor (to the total when the loop was exhausted), rebuild the full
row list, and derive the archive contents from the final row states. -/
def process_batch (env : BatchEnv) (cols : BatchCols) (rows0 : List Row)
    (next_row0 : Nat) (pause_limit : Nat) (skip_completed : Bool) : BatchOutcome :=
  let total := rows0.length
  let start_index := min next_row0 total
  let out := process_rows_loop env cols pause_limit skip_completed
    (rows0.drop start_index) start_index 0
  let final_next := if out.pause_triggered then out.next_row else total
  let rows_final := rows0.take start_index ++ out.rows_out
  let zpaths := successful_paths env cols rows_final
  { results := out.results, next_row := final_next,
    pause_triggered := out.pause_triggered, rows := rows_final,
    invocations := out.invocations,
    remaining_rows := total - final_next,
    zip_paths := zpaths,
    zip_names := zip_arcnames (zpaths.map env.pathOf) }

/-- The single-download form validation of the app (lines 717-738). -/
def single_form_validation_errors (ffmpegAvailable : Bool) (parseTime : String → Option ℚ)
    (clip_start_input clip_end_input : String) : List String :=
  let clip_start_raw := str_strip clip_start_input
  let clip_end_raw := str_strip clip_end_input
  let cs := if clip_start_raw = "" then none else parseTime clip_start_raw
  let ce := if clip_end_raw = "" then none else parseTime clip_end_raw
  (if clip_start_raw ≠ "" ∧ (parseTime clip_start_raw).isNone then
    ["Clip start time must be in HH:MM:SS or seconds format."]
  else []) ++
  (if clip_end_raw ≠ "" ∧ (parseTime clip_end_raw).isNone then
    ["Clip end time must be in HH:MM:SS or seconds format."]
  else []) ++
  (match cs, ce with
   | some s, some e => if e ≤ s then ["Clip end time must be greater than clip start time."] else []
   | _, _ => []) ++
  (if (cs.isSome ∨ ce.isSome) ∧ ¬ ffmpegAvailable then
    ["Clipping requires ffmpeg, which was not detected."]
  else [])

/-- Modelled from the spec: the claimed variant lists for the clip start
column ("clip start time", "start", "start time", "clip start"),
case-insensitive and whitespace-trimmed.  Used only to compare the claim
wording with the source behaviour. -/
def spec_clip_start_columns : List String := ["clip start time", "start", "start time", "clip start"]

/-- Modelled from the spec: the claimed variant lists for the clip end
column. -/
def spec_clip_end_columns : List String := ["clip end time", "end", "end time", "clip end"]

/-- Modelled from the spec: read a row value from whichever column
matches one of the claimed name variants. -/
def spec_clip_lookup (variants : List String) (row : Row) : Option String :=
  (row.find? (fun kv => variants.contains (str_lower (str_strip kv.1)))).map (fun kv => kv.2)

/-- Completed row with a truthy recorded path (the skip-completed
condition of the batch loop). -/
def completed_with_path_b (cols : BatchCols) (row : Row) : Bool :=
  completed_status_values.contains (str_lower (str_strip ((row_get row cols.status_column).getD ""))) &&
  (match row_get row cols.path_column with
   | some s => s != ""
   | none => false)

/-! ### Concrete environments used by the witness theorems -/

def cw0 : ClipWorld :=
  { sourceExists := true, clipCollisions := 0, ffmpegExitZero := true,
    tempExistsAfterFail := true, unlinkRaises := false, replaceRaises := false }

def w0 : DownloadWorld :=
  { run := fun _ _ => RunOutcome.err "boom", clipWorld := cw0,
    pathOf := fun s => { dir := "downloads", stem := s, suffix := "" } }

def p0 : DVParams :=
  { ytDlpExe := some "yt-dlp", sysExecutable := "python", url := "https://example.com/v",
    output_dir := "downloads", filename := none, ffmpegLocation := none,
    cookies := none, cookiesExists := false, username := none, password := none }

def wEmpty : DownloadWorld :=
  { run := fun idx _ =>
      if idx = 0 then RunOutcome.err "ERROR: The downloaded file is empty"
      else RunOutcome.err "second failure",
    clipWorld := cw0,
    pathOf := fun s => { dir := "downloads", stem := s, suffix := "" } }

def cwFail : ClipWorld :=
  { sourceExists := true, clipCollisions := 0, ffmpegExitZero := false,
    tempExistsAfterFail := true, unlinkRaises := false, replaceRaises := false }

def wClipFail : DownloadWorld :=
  { run := fun _ _ => RunOutcome.ok "downloads/video.mp4", clipWorld := cwFail,
    pathOf := fun s => { dir := "downloads", stem := s, suffix := "" } }

def wNoFF : DownloadWorld :=
  { run := fun _ _ => RunOutcome.ok "downloads/v.mp4", clipWorld := cw0,
    pathOf := fun s => { dir := "downloads", stem := s, suffix := "" } }

def cols0 : BatchCols :=
  { url_column := "URL", skip_column := none, status_column := "Download Status",
    detail_column := "Download Detail", path_column := "Download Path",
    timestamp_column := "Processed At" }

def benvNoFF : BatchEnv :=
  { ffmpegAvailable := false,
    parseTime := fun t => if t = "1" then some 1 else if t = "2" then some 2 else none,
    dl := fun _ => none, timestamp := "2026-10-12T00:00:00+00:00",
    fileExists := fun _ => true,
    pathOf := fun s => { dir := "downloads", stem := s, suffix := "" } }

def rowClip : Row :=
  [("URL", "https://example.com/v"), ("Clip Start Time", "1"), ("Clip End Time", "2")]

def rowDone1 : Row :=
  [("URL", "https://example.com/a"), ("Download Status", "downloaded"),
   ("Download Path", "downloads/a.mp4")]

def rowDone2 : Row :=
  [("URL", "https://example.com/b"), ("Download Status", "success"),
   ("Download Path", "downloads/b.mp4")]

def benv0 : BatchEnv :=
  { ffmpegAvailable := true, parseTime := fun _ => none,
    dl := fun i => some ("downloads/f" ++ decRepr i ++ ".mp4"),
    timestamp := "2026-10-12T00:00:00+00:00", fileExists := fun _ => true,
    pathOf := fun s => { dir := "downloads", stem := s, suffix := "" } }

def cli0 : CliEnv :=
  { fileExists := fun s => s == "downloads/title.mp4",
    fileSize := fun _ => some 0, unlinkRaises := false }

def wEmpty2 : DownloadWorld :=
  { run := fun idx _ =>
      if idx = 0 then RunOutcome.err "The downloaded file is empty"
      else RunOutcome.ok "downloads/title.mp4",
    clipWorld := cw0,
    pathOf := fun s => { dir := "downloads", stem := s, suffix := "" } }

def rowU1 : Row := [("URL", "u1")]

def rowU2 : Row := [("URL", "u2")]

def benvZip : BatchEnv :=
  { ffmpegAvailable := true, parseTime := fun _ => none,
    dl := fun i => if i = 0 then some "downloads/clip.mp4" else some "other/clip.mp4",
    timestamp := "2026-10-12T00:00:00+00:00", fileExists := fun _ => true,
    pathOf := fun s => { dir := s, stem := "clip", suffix := ".mp4" } }

/-! ### Helper lemmas -/

theorem validate_clip_pass (s e : ℚ) (h0 : 0 ≤ s) (hlt : s < e) :
    validate_clip (some s) (some e) = none := by
  have h1 : ¬ (s < 0) := not_lt.mpr h0
  have h2 : ¬ (e ≤ 0) := not_le.mpr (lt_of_le_of_lt h0 hlt)
  have h3 : ¬ (e ≤ s) := not_le.mpr hlt
  simp [validate_clip, h1, h2, h3]

theorem validate_clip_fails_of_end_nonpos (cs : Option ℚ) (e : ℚ) (he : e ≤ 0) :
    ∃ msg, validate_clip cs (some e) = some msg := by
  unfold validate_clip
  split
  · exact ⟨_, rfl⟩
  · simp [he]

theorem validate_clip_fails_of_start_neg (ce : Option ℚ) (s : ℚ) (hs : s < 0) :
    validate_clip (some s) ce = some "Clip start time must be zero or positive." := by
  simp [validate_clip, hs]

theorem download_video_validate_fail (w : DownloadWorld) (p : DVParams) (ff : Bool)
    (cs ce : Option ℚ) (msg : String) (h : validate_clip cs ce = some msg) :
    download_video w p true ff cs ce =
      { result := none, attempts := [], errors := [msg], effects := [] } := by
  simp [download_video, h]

theorem download_loop_attempts_ne_nil (w : DownloadWorld) (mk_cmd : List String → List String)
    (ff : Bool) (cs ce : Option ℚ) :
    (download_loop w mk_cmd ff cs ce 0 none attempt_configs).attempts ≠ [] := by
  unfold attempt_configs
  unfold download_loop
  simp only [decide_eq_true_eq, Nat.lt_irrefl, decide_False, Bool.false_and, Bool.not_false]
  cases hr : w.run 0 (mk_cmd []) with
  | ok path =>
    simp only [hr]
    rcases hcm : clip_media ff w.clipWorld (w.pathOf path) cs ce with ⟨r, effs⟩
    cases hb : (cs.isSome || ce.isSome) <;> cases r <;> simp [hb, hcm]
  | err msg =>
    simp only [hr]
    by_cases hc : (contains_empty_file (err_or_unknown msg) = true) <;> simp [hc]


/-- C3: with clip bounds, `download_video` fails before any extraction
attempt when `clip_start < 0`, when `clip_end ≤ 0`, or when both bounds
are present with `clip_end ≤ clip_start` (in the last case with the
end-must-be-greater-than-start reason); and for every pair with
`0 ≤ clip_start < clip_end` validation passes and the pipeline proceeds
to extraction. -/
theorem clip_bounds_validation (w : DownloadWorld) (p : DVParams) (ff : Bool)
    (clip_start clip_end : Option ℚ) :
    (∀ s : ℚ, clip_start = some s → s < 0 →
      (download_video w p true ff clip_start clip_end).result = none ∧
      (download_video w p true ff clip_start clip_end).attempts = []) ∧
    (∀ e : ℚ, clip_end = some e → e ≤ 0 →
      (download_video w p true ff clip_start clip_end).result = none ∧
      (download_video w p true ff clip_start clip_end).attempts = []) ∧
    (∀ s e : ℚ, clip_start = some s → clip_end = some e → 0 ≤ s → 0 < e → e ≤ s →
      (download_video w p true ff clip_start clip_end).result = none ∧
      (download_video w p true ff clip_start clip_end).attempts = [] ∧
      (download_video w p true ff clip_start clip_end).errors =
        ["Clip end time must be greater than clip start time."]) ∧
    (∀ s e : ℚ, clip_start = some s → clip_end = some e → 0 ≤ s → s < e →
      validate_clip clip_start clip_end = none ∧
      (download_video w p true ff clip_start clip_end).attempts ≠ []) := by
  refine ⟨?_, ?_, ?_, ?_⟩
  · intro s hcs hs
    subst hcs
    rw [download_video_validate_fail w p ff _ clip_end _
      (validate_clip_fails_of_start_neg clip_end s hs)]
    exact ⟨rfl, rfl⟩
  · intro e hce he
    subst hce
    obtain ⟨msg, hmsg⟩ := validate_clip_fails_of_end_nonpos clip_start e he
    rw [download_video_validate_fail w p ff _ _ _ hmsg]
    exact ⟨rfl, rfl⟩
  · intro s e hcs hce h0 hpos hles
    subst hcs; subst hce
    have hv : validate_clip (some s) (some e) =
        some "Clip end time must be greater than clip start time." := by
      have h1 : ¬ (s < 0) := not_lt.mpr h0
      have h2 : ¬ (e ≤ 0) := not_le.mpr hpos
      simp [validate_clip, h1, h2, hles]
    rw [download_video_validate_fail w p ff _ _ _ hv]
    exact ⟨rfl, rfl, rfl⟩
  · intro s e hcs hce h0 hlt
    subst hcs; subst hce
    have hv := validate_clip_pass s e h0 hlt
    refine ⟨hv, ?_⟩
    simp only [download_video, Bool.not_true, Bool.false_eq_true, if_false, hv]
    exact download_loop_attempts_ne_nil w (dv_command p ff) ff (some s) (some e)

theorem clip_bounds_validation_witness :
    (download_video w0 p0 true true (some (-1 : ℚ)) none).attempts = [] ∧
    (download_video w0 p0 true true (some 2) (some 1)).errors =
      ["Clip end time must be greater than clip start time."] ∧
    (download_video w0 p0 true true (some 0) (some 5)).attempts ≠ [] :=
  ⟨((clip_bounds_validation w0 p0 true (some (-1)) none).1 (-1) rfl (by norm_num)).2,
   ((clip_bounds_validation w0 p0 true (some 2) (some 1)).2.2.1 2 1 rfl rfl
      (by norm_num) (by norm_num) (by norm_num)).2.2,
   ((clip_bounds_validation w0 p0 true (some 0) (some 5)).2.2.2 0 5 rfl rfl
      (by norm_num) (by norm_num)).2⟩

theorem download_video_eq_loop (w : DownloadWorld) (p : DVParams) (ff : Bool)
    (cs ce : Option ℚ) (hval : validate_clip cs ce = none) :
    download_video w p true ff cs ce =
      download_loop w (dv_command p ff) ff cs ce 0 none attempt_configs := by
  simp [download_video, hval]

theorem dv_command_extra (p : DVParams) (ff : Bool) (extra_flags : List String) :
    dv_command p ff extra_flags = dv_command p ff [] ++ extra_flags := by
  simp [dv_command, build_cli_command]

theorem contains_empty_file_err_or (m : String) :
    contains_empty_file (err_or_unknown m) = contains_empty_file m := by
  unfold err_or_unknown
  split
  · next h => rw [h]; decide
  · rfl

theorem download_loop_idx0_attempts_ok (w : DownloadWorld) (mk_cmd : List String → List String)
    (ff : Bool) (cs ce : Option ℚ) (path : String) (h : w.run 0 (mk_cmd []) = RunOutcome.ok path) :
    (download_loop w mk_cmd ff cs ce 0 none attempt_configs).attempts = [mk_cmd []] := by
  simp only [attempt_configs, download_loop]
  rcases hcm : clip_media ff w.clipWorld (w.pathOf path) cs ce with ⟨r, effs⟩
  cases hb : (cs.isSome || ce.isSome) <;> cases r <;> simp [h, hb, hcm]

theorem download_loop_idx1_attempts (w : DownloadWorld) (mk_cmd : List String → List String)
    (ff : Bool) (cs ce : Option ℚ) (m : String) (hm : contains_empty_file m = true) :
    (download_loop w mk_cmd ff cs ce 1 (some m) [("ipv4", ipv4_flags)]).attempts =
      [mk_cmd ipv4_flags] := by
  simp only [download_loop]
  cases hr : w.run 1 (mk_cmd ipv4_flags) with
  | ok path =>
    rcases hcm : clip_media ff w.clipWorld (w.pathOf path) cs ce with ⟨r, effs⟩
    cases hb : (cs.isSome || ce.isSome) <;> cases r <;> simp [hm, hr, hb, hcm]
  | err m2 => simp [hm, hr]

theorem download_loop_idx1_err (w : DownloadWorld) (mk_cmd : List String → List String)
    (ff : Bool) (cs ce : Option ℚ) (m m2 : String) (hm : contains_empty_file m = true)
    (h : w.run 1 (mk_cmd ipv4_flags) = RunOutcome.err m2) :
    download_loop w mk_cmd ff cs ce 1 (some m) [("ipv4", ipv4_flags)] =
      { result := none, attempts := [mk_cmd ipv4_flags],
        errors := [err_or_unknown m2], effects := [] } := by
  simp only [download_loop]
  simp [hm, h]

theorem download_loop_idx0_err_retry (w : DownloadWorld) (mk_cmd : List String → List String)
    (ff : Bool) (cs ce : Option ℚ) (m : String) (h : w.run 0 (mk_cmd []) = RunOutcome.err m)
    (hce : contains_empty_file m = true) :
    download_loop w mk_cmd ff cs ce 0 none attempt_configs =
      { download_loop w mk_cmd ff cs ce 1 (some (err_or_unknown m)) [("ipv4", ipv4_flags)] with
        attempts := mk_cmd [] ::
          (download_loop w mk_cmd ff cs ce 1 (some (err_or_unknown m)) [("ipv4", ipv4_flags)]).attempts } := by
  have hce2 : contains_empty_file (err_or_unknown m) = true := by
    rw [contains_empty_file_err_or]; exact hce
  conv_lhs => rw [attempt_configs]
  rw [show (download_loop w mk_cmd ff cs ce 0 none (("initial", []) :: [("ipv4", ipv4_flags)])) =
    (if decide (0 < 0) && !(match (none : Option String) with
        | some m => contains_empty_file m | none => false) then
      { result := none, attempts := [], errors := (none : Option String).toList, effects := [] }
    else
      match w.run 0 (mk_cmd []) with
      | RunOutcome.ok path =>
        if cs.isSome || ce.isSome then
          match clip_media ff w.clipWorld (w.pathOf path) cs ce with
          | (none, effs) =>
            { result := none, attempts := [mk_cmd []],
              errors := ["Clipping failed; keeping original download but reporting failure."],
              effects := effs }
          | (some _, effs) =>
            { result := some path, attempts := [mk_cmd []], errors := [], effects := effs }
        else { result := some path, attempts := [mk_cmd []], errors := [], effects := [] }
      | RunOutcome.err msg =>
        if decide (0 = 0) && contains_empty_file (err_or_unknown msg) then
          { download_loop w mk_cmd ff cs ce 1 (some (err_or_unknown msg)) [("ipv4", ipv4_flags)] with
            attempts := mk_cmd [] ::
              (download_loop w mk_cmd ff cs ce 1 (some (err_or_unknown msg)) [("ipv4", ipv4_flags)]).attempts }
        else
          { result := none, attempts := [mk_cmd []],
            errors := [err_or_unknown msg], effects := [] }) from by rw [download_loop]]
  simp [h, hce2]

theorem download_loop_idx0_err_stop (w : DownloadWorld) (mk_cmd : List String → List String)
    (ff : Bool) (cs ce : Option ℚ) (m : String) (h : w.run 0 (mk_cmd []) = RunOutcome.err m)
    (hce : contains_empty_file m = false) :
    download_loop w mk_cmd ff cs ce 0 none attempt_configs =
      { result := none, attempts := [mk_cmd []],
        errors := [err_or_unknown m], effects := [] } := by
  have hce2 : contains_empty_file (err_or_unknown m) = false := by
    rw [contains_empty_file_err_or]; exact hce
  simp only [attempt_configs, download_loop]
  simp [h, hce2]

/-- C1: per `download_video` call, a first-attempt failure whose message
contains "downloaded file is empty" (case-insensitively) triggers exactly
one further attempt whose command is the first command extended by
`--force-ipv4` and `--http-chunk-size`; any other first-attempt error
makes the call fail with a single attempt; a second-attempt failure is
terminal; and at most two extraction invocations ever occur. -/
theorem download_retry_policy (w : DownloadWorld) (p : DVParams) (ff : Bool)
    (cs ce : Option ℚ) (hval : validate_clip cs ce = none) :
    (download_video w p true ff cs ce).attempts.length ≤ 2 ∧
    (∀ m, w.run 0 (dv_command p ff []) = RunOutcome.err m →
      (contains_empty_file m = true →
        (download_video w p true ff cs ce).attempts =
          [dv_command p ff [], dv_command p ff [] ++ ipv4_flags]) ∧
      (contains_empty_file m = true →
        ∀ m2, w.run 1 (dv_command p ff ipv4_flags) = RunOutcome.err m2 →
          (download_video w p true ff cs ce).result = none) ∧
      (contains_empty_file m = false →
        (download_video w p true ff cs ce).attempts = [dv_command p ff []] ∧
        (download_video w p true ff cs ce).result = none)) := by
  have heq := download_video_eq_loop w p ff cs ce hval
  constructor
  · rw [heq]
    cases hr : w.run 0 (dv_command p ff []) with
    | ok path =>
      rw [download_loop_idx0_attempts_ok w _ ff cs ce path hr]
      simp
    | err m =>
      by_cases hce : contains_empty_file m = true
      · rw [download_loop_idx0_err_retry w _ ff cs ce m hr hce]
        simp only [List.length_cons]
        rw [download_loop_idx1_attempts w _ ff cs ce _
          (by rw [contains_empty_file_err_or]; exact hce)]
        simp
      · rw [download_loop_idx0_err_stop w _ ff cs ce m hr (Bool.not_eq_true _ ▸ hce)]
        simp
  · intro m hm
    refine ⟨?_, ?_, ?_⟩
    · intro hce
      rw [heq, download_loop_idx0_err_retry w _ ff cs ce m hm hce]
      simp only [List.cons.injEq]
      rw [download_loop_idx1_attempts w _ ff cs ce _
        (by rw [contains_empty_file_err_or]; exact hce)]
      exact ⟨trivial, by rw [← dv_command_extra p ff ipv4_flags]⟩
    · intro hce m2 h2
      rw [heq, download_loop_idx0_err_retry w _ ff cs ce m hm hce]
      rw [download_loop_idx1_err w _ ff cs ce _ m2
        (by rw [contains_empty_file_err_or]; exact hce) h2]
    · intro hce
      rw [heq, download_loop_idx0_err_stop w _ ff cs ce m hm hce]
      exact ⟨rfl, rfl⟩

theorem download_retry_policy_witness :
    (download_video wEmpty p0 true true none none).attempts =
      [dv_command p0 true [], dv_command p0 true [] ++ ipv4_flags] ∧
    (download_video wEmpty p0 true true none none).result = none ∧
    (download_video w0 p0 true true none none).attempts = [dv_command p0 true []] :=
  have h := download_retry_policy wEmpty p0 true none none rfl
  have h0 := download_retry_policy w0 p0 true none none rfl
  ⟨(h.2 "ERROR: The downloaded file is empty" rfl).1 (by decide),
   (h.2 "ERROR: The downloaded file is empty" rfl).2.1 (by decide) "second failure" rfl,
   ((h0.2 "boom" rfl).2.2 (by decide)).1⟩

theorem validate_clip_none_facts (cs ce : Option ℚ) (h : validate_clip cs ce = none) :
    (∀ s, cs = some s → 0 ≤ s) ∧ (∀ e, ce = some e → 0 < e) ∧
    (∀ s e, cs = some s → ce = some e → s < e) := by
  have hstart : ∀ s, cs = some s → 0 ≤ s := by
    intro s hs
    by_contra hneg
    push_neg at hneg
    rw [hs, validate_clip_fails_of_start_neg ce s hneg] at h
    cases h
  have hend : ∀ e, ce = some e → 0 < e := by
    intro e he
    by_contra hneg
    push_neg at hneg
    obtain ⟨msg, hm⟩ := validate_clip_fails_of_end_nonpos cs e hneg
    rw [he, hm] at h
    cases h
  refine ⟨hstart, hend, ?_⟩
  intro s e hs he
  by_contra hneg
  push_neg at hneg
  have h0 := hstart s hs
  have h1 := hend e he
  subst hs
  subst he
  have hv : validate_clip (some s) (some e) =
      some "Clip end time must be greater than clip start time." := by
    simp [validate_clip, not_lt.mpr h0, not_le.mpr h1, hneg]
  rw [hv] at h
  cases h

theorem clip_media_fail_unlink (cw : ClipWorld) (source : MPath) (cs ce : Option ℚ)
    (hsrc : cw.sourceExists = true)
    (hend : ∀ e, ce = some e → 0 < e)
    (hboth : ∀ s e, cs = some s → ce = some e → s < e)
    (hfail : cw.ffmpegExitZero = false ∨ cw.replaceRaises = true)
    (htmp : cw.tempExistsAfterFail = true) (hul : cw.unlinkRaises = false) :
    clip_media true cw source cs ce =
      (none, [Effect.unlink (next_clip_path cw.clipCollisions source).name]) := by
  unfold clip_media
  cases hz : cw.ffmpegExitZero with
  | false =>
    rcases ce with _ | e
    · simp [hsrc, hz, htmp, hul]
    · simp only [hsrc, hz, htmp, hul]
      rcases cs with _ | s
      · simp [hend e rfl]
      · have hlt := hboth s e rfl rfl
        have hdp : (0 : ℚ) < e - s := by linarith
        simp [hdp, hlt]
  | true =>
    have hr : cw.replaceRaises = true := by
      rcases hfail with hf | hr
      · rw [hf] at hz; cases hz
      · exact hr
    rcases ce with _ | e
    · simp [hsrc, hz, hr, hul]
    · simp only [hsrc, hz, hr, hul]
      rcases cs with _ | s
      · simp [hend e rfl]
      · have hlt := hboth s e rfl rfl
        have hdp : (0 : ℚ) < e - s := by linarith
        simp [hdp, hlt]

/-- C2: when the download itself succeeds but the requested trim fails
(ffmpeg exits nonzero, or replacing the original raises), `download_video`
returns no path, and the temporary sibling clip file is removed. -/
theorem trim_failure_reports_failure (w : DownloadWorld) (p : DVParams)
    (cs ce : Option ℚ) (hclip : (cs.isSome || ce.isSome) = true)
    (hval : validate_clip cs ce = none)
    (hsrc : w.clipWorld.sourceExists = true)
    (hfail : w.clipWorld.ffmpegExitZero = false ∨ w.clipWorld.replaceRaises = true)
    (htmp : w.clipWorld.tempExistsAfterFail = true)
    (hul : w.clipWorld.unlinkRaises = false)
    (path : String)
    (hok : w.run 0 (dv_command p true []) = RunOutcome.ok path ∨
      (∃ m, w.run 0 (dv_command p true []) = RunOutcome.err m ∧
        contains_empty_file m = true ∧
        w.run 1 (dv_command p true ipv4_flags) = RunOutcome.ok path)) :
    (download_video w p true true cs ce).result = none ∧
    Effect.unlink (next_clip_path w.clipWorld.clipCollisions (w.pathOf path)).name ∈
      (download_video w p true true cs ce).effects := by
  have hfacts := validate_clip_none_facts cs ce hval
  have hcm := clip_media_fail_unlink w.clipWorld (w.pathOf path) cs ce hsrc
    hfacts.2.1 hfacts.2.2 hfail htmp hul
  have heq := download_video_eq_loop w p true cs ce hval
  rcases hok with hok1 | ⟨m, hm, hce, hok2⟩
  · rw [heq]
    simp only [attempt_configs, download_loop]
    simp [hok1, hclip, hcm]
  · rw [heq, download_loop_idx0_err_retry w _ true cs ce m hm hce]
    have hce2 : contains_empty_file (err_or_unknown m) = true := by
      rw [contains_empty_file_err_or]; exact hce
    simp only [download_loop]
    simp [hok2, hclip, hcm, hce2]

theorem trim_failure_reports_failure_witness :
    (download_video wClipFail p0 true true (some 1) (some 2)).result = none ∧
    Effect.unlink (next_clip_path wClipFail.clipWorld.clipCollisions
        (wClipFail.pathOf "downloads/video.mp4")).name ∈
      (download_video wClipFail p0 true true (some 1) (some 2)).effects :=
  trim_failure_reports_failure wClipFail p0 (some 1) (some 2) rfl (by decide)
    rfl (Or.inl rfl) rfl rfl "downloads/video.mp4" (Or.inl rfl)

theorem clip_media_no_ffmpeg (cw : ClipWorld) (source : MPath) (cs ce : Option ℚ) :
    clip_media false cw source cs ce = (none, []) := rfl

theorem row_clip_bounds_start_facts (env : BatchEnv) (row : Row) (s : ℚ)
    (h : (row_clip_bounds env row).1 = some s) :
    clip_start_raw_of row ≠ "" ∧ env.parseTime (clip_start_raw_of row) = some s := by
  unfold row_clip_bounds at h
  by_cases hcsr : clip_start_raw_of row = ""
  · rw [if_pos hcsr] at h; cases h
  · exact ⟨hcsr, by rwa [if_neg hcsr] at h⟩

theorem row_clip_bounds_end_facts (env : BatchEnv) (row : Row) (e : ℚ)
    (h : (row_clip_bounds env row).2 = some e) :
    clip_end_raw_of row ≠ "" ∧ env.parseTime (clip_end_raw_of row) = some e := by
  unfold row_clip_bounds at h
  by_cases hcer : clip_end_raw_of row = ""
  · rw [if_pos hcer] at h; cases h
  · exact ⟨hcer, by rwa [if_neg hcer] at h⟩

theorem row_clip_errors_no_ffmpeg (env : BatchEnv) (row : Row) (s e : ℚ)
    (hff : env.ffmpegAvailable = false)
    (hb : row_clip_bounds env row = (some s, some e)) (hlt : s < e) :
    row_clip_errors env row = ["ffmpeg not available for clipping."] := by
  have hs := row_clip_bounds_start_facts env row s (by rw [hb])
  have he := row_clip_bounds_end_facts env row e (by rw [hb])
  unfold row_clip_errors
  rw [hb]
  simp [hs.2, he.2, hs.1, he.1, not_le.mpr hlt, hff]

theorem process_row_clip_no_ffmpeg (env : BatchEnv) (cols : BatchCols) (i : Nat)
    (row : Row) (s e : ℚ) (hff : env.ffmpegAvailable = false)
    (hsc : cols.skip_column = none)
    (hurl : str_strip ((row_get row cols.url_column).getD "") ≠ "")
    (hb : row_clip_bounds env row = (some s, some e)) (hlt : s < e) :
    process_row env cols false i row =
      { status := "failed", detail := "ffmpeg not available for clipping.",
        path_value := none, invoked := false } := by
  have herr := row_clip_errors_no_ffmpeg env row s e hff hb hlt
  unfold process_row
  rw [hsc]
  simp [hurl, herr, join_semi]

theorem single_form_requires_ffmpeg (pt : String → Option ℚ) (a b : String)
    (h : (if str_strip a = "" then none else pt (str_strip a)).isSome ∨
         (if str_strip b = "" then none else pt (str_strip b)).isSome) :
    "Clipping requires ffmpeg, which was not detected." ∈
      single_form_validation_errors false pt a b := by
  simp only [single_form_validation_errors]
  refine List.mem_append.mpr (Or.inr ?_)
  rw [if_pos]
  · exact List.mem_singleton.mpr rfl
  · exact ⟨h, by simp⟩

/-- C4 counterexample: with clip bounds requested while ffmpeg is
unavailable and the download itself succeeding, `download_video` returns
no path — it does not skip clipping and report the downloaded file, so
the claimed graceful degradation of the single (non-batch) path is false
on the code. -/
theorem clip_without_ffmpeg_cex :
    wNoFF.run 0 (dv_command p0 false []) = RunOutcome.ok "downloads/v.mp4" ∧
    (download_video wNoFF p0 true false (some 1) (some 2)).result = none := by
  constructor
  · rfl
  · rw [download_video_eq_loop wNoFF p0 false (some 1) (some 2) (by decide)]
    simp only [attempt_configs, download_loop]
    simp [show wNoFF.run 0 (dv_command p0 false []) = RunOutcome.ok "downloads/v.mp4" from rfl,
      clip_media_no_ffmpeg]

/-- C4 (amended): a clip request while ffmpeg is unavailable is treated
as a failure everywhere: `download_video` reaches `_clip_media`, which
refuses, and the call returns no path with no filesystem effect; the
batch path marks such a row failed with "ffmpeg not available for
clipping."; and the single-download form rejects the request as a
validation error. -/
theorem clip_without_ffmpeg_fails (w : DownloadWorld) (p : DVParams) (cs ce : Option ℚ)
    (hclip : (cs.isSome || ce.isSome) = true) (hval : validate_clip cs ce = none)
    (path : String) (hok : w.run 0 (dv_command p false []) = RunOutcome.ok path) :
    ((download_video w p true false cs ce).result = none ∧
     (download_video w p true false cs ce).effects = []) ∧
    (∀ (env : BatchEnv) (cols : BatchCols) (i : Nat) (row : Row) (s e : ℚ),
      env.ffmpegAvailable = false → cols.skip_column = none →
      str_strip ((row_get row cols.url_column).getD "") ≠ "" →
      row_clip_bounds env row = (some s, some e) → s < e →
      process_row env cols false i row =
        { status := "failed", detail := "ffmpeg not available for clipping.",
          path_value := none, invoked := false }) ∧
    (∀ (pt : String → Option ℚ) (a b : String),
      ((if str_strip a = "" then none else pt (str_strip a)).isSome ∨
       (if str_strip b = "" then none else pt (str_strip b)).isSome) →
      "Clipping requires ffmpeg, which was not detected." ∈
        single_form_validation_errors false pt a b) := by
  refine ⟨?_, ?_, ?_⟩
  · rw [download_video_eq_loop w p false cs ce hval]
    simp only [attempt_configs, download_loop]
    simp [hok, hclip, clip_media_no_ffmpeg]
  · intro env cols i row s e hff hsc hurl hb hlt
    exact process_row_clip_no_ffmpeg env cols i row s e hff hsc hurl hb hlt
  · intro pt a b h
    exact single_form_requires_ffmpeg pt a b h

theorem clip_without_ffmpeg_fails_witness :
    ((download_video wNoFF p0 true false (some 1) (some 2)).result = none ∧
     (download_video wNoFF p0 true false (some 1) (some 2)).effects = []) ∧
    process_row benvNoFF cols0 false 0 rowClip =
      { status := "failed", detail := "ffmpeg not available for clipping.",
        path_value := none, invoked := false } ∧
    "Clipping requires ffmpeg, which was not detected." ∈
      single_form_validation_errors false benvNoFF.parseTime "1" "2" :=
  have h := clip_without_ffmpeg_fails wNoFF p0 (some 1) (some 2) rfl (by decide)
    "downloads/v.mp4" rfl
  ⟨h.1,
   h.2.1 benvNoFF cols0 0 rowClip 1 2 rfl rfl (by decide) (by decide) (by norm_num),
   h.2.2 benvNoFF.parseTime "1" "2" (Or.inl (by decide))⟩

theorem process_row_completed (env : BatchEnv) (cols : BatchCols) (i : Nat) (row : Row)
    (h : completed_with_path_b cols row = true) :
    process_row env cols true i row =
      { status := "skipped", detail := "Already marked as downloaded in CSV.",
        path_value := none, invoked := false } := by
  unfold completed_with_path_b at h
  rw [Bool.and_eq_true] at h
  obtain ⟨h1, h2⟩ := h
  have h1m : str_lower (str_strip ((row_get row cols.status_column).getD "")) ∈
      completed_status_values := by simpa using h1
  simp [process_row, h1m, h2]

theorem process_rows_loop_all_completed (env : BatchEnv) (cols : BatchCols) (N : Nat) :
    ∀ (rows : List Row) (z pb : Nat),
      (∀ row ∈ rows, completed_with_path_b cols row = true) →
      (process_rows_loop env cols N true rows z pb).invocations = 0 ∧
      (∀ entry ∈ (process_rows_loop env cols N true rows z pb).results,
        entry.2.1 = "skipped" ∧ entry.2.2 = "Already marked as downloaded in CSV.") := by
  intro rows
  induction rows with
  | nil =>
    intro z pb hall
    exact ⟨rfl, by intro e he; simp [process_rows_loop] at he⟩
  | cons row rest ih =>
    intro z pb hall
    have hrow := process_row_completed env cols z row (hall row (List.mem_cons_self row rest))
    have hallr : ∀ r ∈ rest, completed_with_path_b cols r = true :=
      fun r hr => hall r (List.mem_cons_of_mem row hr)
    simp only [process_rows_loop, hrow]
    by_cases hp : N ≠ 0 ∧ N ≤ pb + 1
    · rw [if_pos hp]
      refine ⟨by simp, ?_⟩
      intro e he
      simp only [List.mem_singleton] at he
      subst he
      exact ⟨rfl, rfl⟩
    · rw [if_neg hp]
      obtain ⟨ih1, ih2⟩ := ih (z + 1) (pb + 1) hallr
      refine ⟨by simp [ih1], ?_⟩
      intro e he
      simp only [List.mem_cons] at he
      rcases he with he | he
      · subst he
        exact ⟨rfl, rfl⟩
      · exact ih2 e he

/-- C5: with "skip completed" enabled, a row whose stored status is a
completed value with a nonempty recorded path is marked skipped with
reason "Already marked as downloaded in CSV." and the download pipeline
is not invoked; hence a batch pass over rows that are all completed
performs zero extraction calls. -/
theorem skip_completed_no_reinvoke (env : BatchEnv) (cols : BatchCols)
    (rows : List Row) (n0 N : Nat)
    (hall : ∀ row ∈ rows, completed_with_path_b cols row = true) :
    (∀ (i : Nat) (row : Row), completed_with_path_b cols row = true →
      process_row env cols true i row =
        { status := "skipped", detail := "Already marked as downloaded in CSV.",
          path_value := none, invoked := false }) ∧
    (process_batch env cols rows n0 N true).invocations = 0 ∧
    (∀ entry ∈ (process_batch env cols rows n0 N true).results,
      entry.2.1 = "skipped" ∧ entry.2.2 = "Already marked as downloaded in CSV.") := by
  have hdrop : ∀ r ∈ rows.drop (min n0 rows.length), completed_with_path_b cols r = true :=
    fun r hr => hall r (List.drop_subset _ _ hr)
  have h := process_rows_loop_all_completed env cols N
    (rows.drop (min n0 rows.length)) (min n0 rows.length) 0 hdrop
  refine ⟨fun i row hc => process_row_completed env cols i row hc, ?_, ?_⟩
  · simpa [process_batch] using h.1
  · intro e he
    exact h.2 e (by simpa [process_batch] using he)

theorem skip_completed_no_reinvoke_witness :
    (process_batch benv0 cols0 [rowDone1, rowDone2] 0 0 true).invocations = 0 :=
  (skip_completed_no_reinvoke benv0 cols0 [rowDone1, rowDone2] 0 0 (by decide)).2.1

theorem process_rows_loop_spec (env : BatchEnv) (cols : BatchCols) (N : Nat) (skip : Bool) :
    ∀ (l : List Row) (z pb : Nat), pb < N →
      (process_rows_loop env cols N skip l z pb).results.length = min (N - pb) l.length ∧
      (process_rows_loop env cols N skip l z pb).results.map (fun e => e.1) =
        List.range' (z + 1) (min (N - pb) l.length) ∧
      (process_rows_loop env cols N skip l z pb).next_row = z + min (N - pb) l.length ∧
      ((process_rows_loop env cols N skip l z pb).pause_triggered = true ↔ N - pb ≤ l.length) := by
  intro l
  induction l with
  | nil =>
    intro z pb hpb
    refine ⟨by simp [process_rows_loop], by simp [process_rows_loop], by simp [process_rows_loop], ?_⟩
    simp only [process_rows_loop, List.length_nil]
    constructor
    · intro h; cases h
    · intro h; omega
  | cons row rest ih =>
    intro z pb hpb
    simp only [process_rows_loop]
    by_cases hp : N ≠ 0 ∧ N ≤ pb + 1
    · rw [if_pos hp]
      refine ⟨?_, ?_, ?_, ?_⟩
      · simp only [List.length_cons, List.length_nil]
        omega
      · have hm : min (N - pb) ((row :: rest).length) = 1 := by
          simp only [List.length_cons]
          omega
        rw [hm]
        simp [List.range']
      · simp only [List.length_cons]
        omega
      · simp only [List.length_cons]
        constructor
        · intro _
          omega
        · intro _
          trivial
    · rw [if_neg hp]
      have hpb1 : pb + 1 < N := by omega
      obtain ⟨ih1, ih2, ih3, ih4⟩ := ih (z + 1) (pb + 1) hpb1
      refine ⟨?_, ?_, ?_, ?_⟩
      · simp only [List.length_cons, ih1]
        omega
      · have hm : min (N - pb) ((row :: rest).length) = min (N - (pb + 1)) rest.length + 1 := by
          simp only [List.length_cons]
          omega
        rw [hm, List.range'_succ]
        simp only [List.map_cons, ih2]
      · simp only [ih3, List.length_cons]
        omega
      · simp only [ih4, List.length_cons]
        omega

/-- C6: one `_process_batch` call over `T` rows starting at cursor `s`
with positive pause limit `N` handles exactly `min N (T - s)` rows, in
index order starting at row `s + 1` (every handled row counting toward
the limit), leaves the cursor at `s` plus the number of rows handled, and
reports `T - cursor` remaining rows. -/
theorem pause_limit_chunking (env : BatchEnv) (cols : BatchCols) (rows : List Row)
    (n0 N : Nat) (skip : Bool) (hN : 1 ≤ N) (hn0 : n0 ≤ rows.length) :
    (process_batch env cols rows n0 N skip).results.length = min N (rows.length - n0) ∧
    (process_batch env cols rows n0 N skip).results.map (fun e => e.1) =
      List.range' (n0 + 1) (min N (rows.length - n0)) ∧
    (process_batch env cols rows n0 N skip).next_row = n0 + min N (rows.length - n0) ∧
    (process_batch env cols rows n0 N skip).remaining_rows =
      rows.length - (n0 + min N (rows.length - n0)) := by
  have hmin0 : min n0 rows.length = n0 := Nat.min_eq_left hn0
  obtain ⟨h1, h2, h3, h4⟩ := process_rows_loop_spec env cols N skip (rows.drop n0) n0 0
    (by omega)
  rw [List.length_drop] at h1 h2 h3 h4
  rw [Nat.sub_zero] at h1 h2 h3 h4
  have hnext : (process_batch env cols rows n0 N skip).next_row =
      n0 + min N (rows.length - n0) := by
    simp only [process_batch, hmin0]
    by_cases hpause :
        (process_rows_loop env cols N skip (rows.drop n0) n0 0).pause_triggered = true
    · simp only [hpause, if_true]
      exact h3
    · have hlt : rows.length - n0 < N := by
        have := (not_iff_not.mpr h4).mp hpause
        omega
      have : min N (rows.length - n0) = rows.length - n0 := by omega
      rw [this]
      simp only [Bool.not_eq_true] at hpause
      simp only [hpause, Bool.false_eq_true, if_false]
      omega
  refine ⟨?_, ?_, hnext, ?_⟩
  · simpa [process_batch, hmin0] using h1
  · simpa [process_batch, hmin0] using h2
  · have : (process_batch env cols rows n0 N skip).remaining_rows =
        rows.length - (process_batch env cols rows n0 N skip).next_row := by
      simp [process_batch]
    rw [this, hnext]

theorem pause_limit_chunking_witness :
    (process_batch benv0 cols0 [rowDone1, rowDone1, rowDone1] 0 2 false).results.length =
      min 2 (([rowDone1, rowDone1, rowDone1] : List Row).length - 0) ∧
    (process_batch benv0 cols0 [rowDone1, rowDone1, rowDone1] 0 2 false).next_row =
      0 + min 2 (([rowDone1, rowDone1, rowDone1] : List Row).length - 0) ∧
    (process_batch benv0 cols0 [rowDone1, rowDone1, rowDone1] 0 2 false).remaining_rows = 1 ∧
    (process_batch benv0 cols0 [rowDone1, rowDone1, rowDone1] 2 2 false).results.length =
      min 2 (([rowDone1, rowDone1, rowDone1] : List Row).length - 2) ∧
    (process_batch benv0 cols0 [rowDone1, rowDone1, rowDone1] 2 2 false).remaining_rows = 0 :=
  have hfirst := pause_limit_chunking benv0 cols0 [rowDone1, rowDone1, rowDone1] 0 2 false
    (by decide) (by decide)
  have hsecond := pause_limit_chunking benv0 cols0 [rowDone1, rowDone1, rowDone1] 2 2 false
    (by decide) (by decide)
  ⟨hfirst.1, hfirst.2.2.1, (hfirst.2.2.2).trans (by decide), hsecond.1,
   (hsecond.2.2.2).trans (by decide)⟩

theorem sanitize_go_claim_eq :
    ∀ (args : List String) (m : Bool) (prev : Option String),
      m = decide (prev = some "--password") →
      (prev = some "--password" → args.head? ≠ some "--password") →
      List.Chain' (fun a b => ¬(a = "--password" ∧ b = "--password")) args →
      sanitize_go args m =
        (args.zip (prev :: args.map some)).map
          (fun pr => if pr.2 = some "--password" then "***" else pr.1) := by
  intro args
  induction args with
  | nil =>
    intro m prev hm _ _
    simp [sanitize_go]
  | cons a rest ih =>
    intro m prev hm hprev hch
    rw [List.chain'_cons'] at hch
    obtain ⟨hhead, hch'⟩ := hch
    by_cases hp : prev = some "--password"
    · have hm' : m = true := by rw [hm, hp]; simp
      have ha : a ≠ "--password" := by
        have h2 := hprev hp
        simp only [List.head?_cons] at h2
        intro heq
        exact h2 (by rw [heq])
      subst hm'
      simp only [sanitize_go]
      rw [hp]
      simp only [List.zip_cons_cons, List.map_cons, if_pos rfl]
      congr 1
      exact ih false (some a) (by simp [ha])
        (fun hc => absurd (Option.some.inj hc) ha) hch'
    · have hm' : m = false := by rw [hm]; simp [hp]
      subst hm'
      simp only [sanitize_go]
      simp only [List.zip_cons_cons, List.map_cons, if_neg hp]
      congr 1
      exact ih (a == "--password") (some a)
        (by by_cases h : a = "--password" <;> simp [h])
        (by
          intro hc hh
          have haa : a = "--password" := Option.some.inj hc
          have hmem : "--password" ∈ rest.head? := by rw [hh]; rfl
          exact hhead "--password" hmem ⟨haa, rfl⟩)
        hch'

theorem sanitize_go_append :
    ∀ (xs ys : List String) (m : Bool),
      sanitize_go (xs ++ ys) m = sanitize_go xs m ++ sanitize_go ys (sanitize_state xs m) := by
  intro xs
  induction xs with
  | nil => intro ys m; rfl
  | cons a rest ih =>
    intro ys m
    cases m
    · simp only [List.cons_append, sanitize_go, sanitize_state]
      exact congrArg _ (ih ys _)
    · simp only [List.cons_append, sanitize_go, sanitize_state]
      exact congrArg _ (ih ys _)

theorem sanitize_state_last (xs : List String) (u : String) (m : Bool)
    (hu : u ≠ "--password") : sanitize_state (xs ++ [u]) m = false := by
  induction xs generalizing m with
  | nil =>
    cases m
    · simp [sanitize_state, hu]
    · simp [sanitize_state]
  | cons a rest ih =>
    cases m
    · simp only [List.cons_append, sanitize_state]
      exact ih _
    · simp only [List.cons_append, sanitize_state]
      exact ih _

theorem sanitize_pw_block (front back : List String) (u pval : String)
    (hu : u ≠ "--password") :
    sanitize_go (front ++ ([u] ++ (["--password", pval] ++ back))) false =
      sanitize_go (front ++ [u]) false ++
        "--password" :: "***" :: sanitize_go back false := by
  rw [show front ++ ([u] ++ (["--password", pval] ++ back)) =
    (front ++ [u]) ++ ("--password" :: pval :: back) by simp]
  rw [sanitize_go_append]
  rw [sanitize_state_last front u false hu]
  congr 1

theorem build_cli_command_password_indep (exe : Option String) (sysx url tmpl : String)
    (uf : Bool) (ffl ck : Option String) (u : String) (fl : List String)
    (hu : u ≠ "") (hupw : u ≠ "--password") :
    ∀ p1 p2 : String, p1 ≠ "" → p2 ≠ "" →
      sanitize_cli_args (build_cli_command exe sysx url tmpl uf ffl ck (some u) (some p1) fl) =
      sanitize_cli_args (build_cli_command exe sysx url tmpl uf ffl ck (some u) (some p2) fl) := by
  have hshape : ∀ p : String, p ≠ "" →
      build_cli_command exe sysx url tmpl uf ffl ck (some u) (some p) fl =
        ((build_cli_command exe sysx url tmpl uf ffl ck none none []) ++ ["--username"]) ++
          ([u] ++ (["--password", p] ++ fl)) := by
    intro p hp
    unfold build_cli_command
    simp [hu, hp]
  intro p1 p2 hp1 hp2
  rw [hshape p1 hp1, hshape p2 hp2]
  unfold sanitize_cli_args
  rw [sanitize_pw_block _ fl u p1 hupw, sanitize_pw_block _ fl u p2 hupw]

/-- C9 counterexample: on the argument list with two consecutive
`"--password"` elements, `_sanitize_cli_args` leaves the element after
the second `"--password"` unmasked, so it does not replace the element
immediately following each `"--password"` as the claim states. -/
theorem sanitize_claim_cex :
    sanitize_cli_args ["--password", "--password", "secret"] =
      ["--password", "***", "secret"] ∧
    claim_mask ["--password", "--password", "secret"] =
      ["--password", "***", "***"] ∧
    sanitize_cli_args ["--password", "--password", "secret"] ≠
      claim_mask ["--password", "--password", "secret"] := by
  refine ⟨by decide, by decide, by decide⟩

/-- C9 (amended): `_sanitize_cli_args` masks an element exactly when it
follows an unmasked `"--password"`; on any list without two consecutive
`"--password"` elements this coincides with the claimed behaviour
(mask the element after each `"--password"`, leave everything else); and
the logged command of `_run_cli_download` is invariant under the password
value for every command built by `_build_cli_command` with a nonempty
username different from the literal `"--password"` and nonempty
passwords. -/
theorem sanitize_masking_correct :
    (∀ args : List String,
      List.Chain' (fun a b => ¬(a = "--password" ∧ b = "--password")) args →
      sanitize_cli_args args = claim_mask args) ∧
    (∀ (exe : Option String) (sysx url tmpl : String) (uf : Bool)
       (ffl ck : Option String) (u p1 p2 : String) (fl : List String),
      u ≠ "" → u ≠ "--password" → p1 ≠ "" → p2 ≠ "" →
      sanitize_cli_args (build_cli_command exe sysx url tmpl uf ffl ck (some u) (some p1) fl) =
      sanitize_cli_args (build_cli_command exe sysx url tmpl uf ffl ck (some u) (some p2) fl)) := by
  constructor
  · intro args hch
    unfold sanitize_cli_args claim_mask
    exact sanitize_go_claim_eq args false none (by simp)
      (fun hc => Option.noConfusion hc) hch
  · intro exe sysx url tmpl uf ffl ck u p1 p2 fl hu hupw hp1 hp2
    exact build_cli_command_password_indep exe sysx url tmpl uf ffl ck u fl hu hupw
      p1 p2 hp1 hp2

theorem sanitize_masking_correct_witness :
    sanitize_cli_args ["--username", "alice", "--password", "hunter2"] =
      claim_mask ["--username", "alice", "--password", "hunter2"] ∧
    sanitize_cli_args (build_cli_command (some "yt-dlp") "python" "https://example.com/v"
        "downloads/a.mp4" true none none (some "alice") (some "pw1") []) =
      sanitize_cli_args (build_cli_command (some "yt-dlp") "python" "https://example.com/v"
        "downloads/a.mp4" true none none (some "alice") (some "pw2") []) :=
  ⟨sanitize_masking_correct.1 ["--username", "alice", "--password", "hunter2"]
     (by simp [List.chain'_cons]),
   sanitize_masking_correct.2 (some "yt-dlp") "python" "https://example.com/v"
     "downloads/a.mp4" true none none "alice" "pw1" "pw2" [] (by decide) (by decide)
     (by decide) (by decide)⟩

/-- C10: when the extraction subprocess exits 0 but the reported output
file exists with size 0, `_run_cli_download` deletes the empty file and
returns no path with the message "The downloaded file is empty"; this
message matches the retry substring, so a first attempt ending this way
triggers the one-time IPv4 retry (two attempts) in `download_video`. -/
theorem empty_file_deletion_retry (env : CliEnv) (output_dir stdout stderr p : String)
    (hp : parse_filepath_from_output env.fileExists stdout = some p)
    (hex : env.fileExists p = true) (hsz : env.fileSize p = some 0)
    (hul : env.unlinkRaises = false) :
    run_cli_download env output_dir 0 stdout stderr =
      (none, some "The downloaded file is empty", [Effect.unlink p]) ∧
    contains_empty_file "The downloaded file is empty" = true ∧
    (∀ (w : DownloadWorld) (pr : DVParams) (ff : Bool),
      w.run 0 (dv_command pr ff []) = RunOutcome.err "The downloaded file is empty" →
      (download_video w pr true ff none none).attempts.length = 2) := by
  refine ⟨?_, by decide, ?_⟩
  · unfold run_cli_download
    simp [hp, hex, hsz, hul]
  · intro w pr ff hrun
    rw [download_video_eq_loop w pr ff none none rfl]
    rw [download_loop_idx0_err_retry w _ ff none none _ hrun (by decide)]
    simp only [List.length_cons]
    rw [download_loop_idx1_attempts w _ ff none none _ (by decide)]
    simp

theorem empty_file_deletion_retry_witness :
    run_cli_download cli0 "downloads" 0 "downloads/title.mp4" "" =
      (none, some "The downloaded file is empty", [Effect.unlink "downloads/title.mp4"]) ∧
    (download_video wEmpty2 p0 true true none none).attempts.length = 2 :=
  have h := empty_file_deletion_retry cli0 "downloads" "downloads/title.mp4" ""
    "downloads/title.mp4" (by decide) (by decide) rfl rfl
  ⟨h.1, h.2.2 wEmpty2 p0 true rfl⟩

/-- C8 counterexample: a row whose clip start column is named "start"
(one of the claimed variants) is not recognized by the batch loop — the
code reads only the exact key "Clip Start Time" — while the spec's
variant-based lookup would find the value. -/
theorem clip_variant_headers_cex :
    clip_start_raw_of [("start", "45"), ("URL", "u")] = "" ∧
    spec_clip_lookup spec_clip_start_columns [("start", "45"), ("URL", "u")] = some "45" := by
  exact ⟨by decide, by decide⟩

/-- C8 (amended): per-row clip bounds are read only from the exact
column keys "Clip Start Time" and "Clip End Time" (a case-sensitive
dict lookup); a row carrying none of those exact keys is processed as
having no clip bounds and produces no clip validation error, while a row
with the exact key has its stripped value honoured. -/
theorem clip_exact_headers_only (env : BatchEnv) :
    (∀ row : Row, row_get row "Clip Start Time" = none → clip_start_raw_of row = "") ∧
    (∀ (row : Row) (v : String), row_get row "Clip Start Time" = some v →
      clip_start_raw_of row = str_strip v) ∧
    (∀ row : Row, row_get row "Clip End Time" = none → clip_end_raw_of row = "") ∧
    (∀ (row : Row) (v : String), row_get row "Clip End Time" = some v →
      clip_end_raw_of row = str_strip v) ∧
    (∀ row : Row, row_get row "Clip Start Time" = none →
      row_get row "Clip End Time" = none →
      row_clip_bounds env row = (none, none) ∧ row_clip_errors env row = []) := by
  have hstart : ∀ row : Row, row_get row "Clip Start Time" = none →
      clip_start_raw_of row = "" := by
    intro row h
    unfold clip_start_raw_of
    rw [h]
    rfl
  have hend : ∀ row : Row, row_get row "Clip End Time" = none →
      clip_end_raw_of row = "" := by
    intro row h
    unfold clip_end_raw_of
    rw [h]
    rfl
  refine ⟨hstart, ?_, hend, ?_, ?_⟩
  · intro row v h
    unfold clip_start_raw_of
    rw [h]
    rfl
  · intro row v h
    unfold clip_end_raw_of
    rw [h]
    rfl
  · intro row h1 h2
    have hb : row_clip_bounds env row = (none, none) := by
      unfold row_clip_bounds
      rw [hstart row h1, hend row h2]
      rfl
    refine ⟨hb, ?_⟩
    unfold row_clip_errors
    rw [hb, hstart row h1, hend row h2]
    simp

theorem clip_exact_headers_only_witness :
    clip_start_raw_of [("start", "45"), ("URL", "u")] = "" ∧
    clip_start_raw_of [("Clip Start Time", " 45 ")] = str_strip " 45 " ∧
    row_clip_errors benvNoFF [("start", "45"), ("URL", "u")] = [] :=
  have h := clip_exact_headers_only benvNoFF
  ⟨h.1 [("start", "45"), ("URL", "u")] (by decide),
   h.2.1 [("Clip Start Time", " 45 ")] " 45 " (by decide),
   (h.2.2.2.2 [("start", "45"), ("URL", "u")] (by decide) (by decide)).2⟩

theorem dec_digits_lt : ∀ (fuel n : Nat), ∀ d ∈ dec_digits fuel n, d < 10 := by
  intro fuel
  induction fuel with
  | zero =>
    intro n d hd
    cases n <;> simp [dec_digits] at hd
  | succ f ih =>
    intro n d hd
    cases n with
    | zero => simp [dec_digits] at hd
    | succ m =>
      simp only [dec_digits, List.mem_cons] at hd
      rcases hd with h | h
      · subst h
        exact Nat.mod_lt _ (by omega)
      · exact ih _ d h

theorem of_dec_digits_eq : ∀ (fuel n : Nat), n ≤ fuel →
    of_dec_digits (dec_digits fuel n) = n := by
  intro fuel
  induction fuel with
  | zero =>
    intro n hn
    have : n = 0 := by omega
    subst this
    rfl
  | succ f ih =>
    intro n hn
    cases n with
    | zero => rfl
    | succ m =>
      simp only [dec_digits, of_dec_digits]
      have hdiv : (m + 1) / 10 ≤ f := by
        have := Nat.div_lt_self (Nat.succ_pos m) (by omega : 1 < 10)
        omega
      rw [ih _ hdiv]
      omega

theorem digitChar_inj_lt : ∀ a < 10, ∀ b < 10, Nat.digitChar a = Nat.digitChar b → a = b := by
  decide

theorem map_digitChar_inj : ∀ (l1 l2 : List Nat), (∀ d ∈ l1, d < 10) → (∀ d ∈ l2, d < 10) →
    l1.map Nat.digitChar = l2.map Nat.digitChar → l1 = l2 := by
  intro l1
  induction l1 with
  | nil =>
    intro l2 _ _ h
    cases l2 with
    | nil => rfl
    | cons b t2 => simp at h
  | cons a t ih =>
    intro l2 h1 h2 h
    cases l2 with
    | nil => simp at h
    | cons b t2 =>
      simp only [List.map_cons, List.cons.injEq] at h
      have ha := h1 a (by simp)
      have hb := h2 b (by simp)
      have hab : a = b := digitChar_inj_lt a ha b hb h.1
      rw [hab, ih t2 (fun d hd => h1 d (by simp [hd])) (fun d hd => h2 d (by simp [hd])) h.2]

theorem decRepr_inj : Function.Injective decRepr := by
  intro a b h
  unfold decRepr at h
  by_cases ha : a = 0 <;> by_cases hb : b = 0
  · rw [ha, hb]
  · exfalso
    rw [if_pos ha, if_neg hb] at h
    have hrev : (dec_digits b b).map Nat.digitChar = ['0'] := by
      have hdata : (['0'] : List Char) = ((dec_digits b b).map Nat.digitChar).reverse :=
        congrArg String.data h
      have := congrArg List.reverse hdata
      simpa using this.symm
    have hdd : dec_digits b b = [0] := by
      apply map_digitChar_inj _ _ (dec_digits_lt b b)
        (by intro d hd; simp at hd; omega)
      rw [hrev]
      rfl
    have hofd := of_dec_digits_eq b b le_rfl
    rw [hdd] at hofd
    simp [of_dec_digits] at hofd
    exact hb hofd.symm
  · exfalso
    rw [if_neg ha, if_pos hb] at h
    have hrev : (dec_digits a a).map Nat.digitChar = ['0'] := by
      have hdata : ((dec_digits a a).map Nat.digitChar).reverse = (['0'] : List Char) :=
        congrArg String.data h
      have := congrArg List.reverse hdata
      simpa using this
    have hdd : dec_digits a a = [0] := by
      apply map_digitChar_inj _ _ (dec_digits_lt a a)
        (by intro d hd; simp at hd; omega)
      rw [hrev]
      rfl
    have hofd := of_dec_digits_eq a a le_rfl
    rw [hdd] at hofd
    simp [of_dec_digits] at hofd
    exact ha hofd.symm
  · rw [if_neg ha, if_neg hb] at h
    have hrev : ((dec_digits a a).map Nat.digitChar).reverse =
        ((dec_digits b b).map Nat.digitChar).reverse := congrArg String.data h
    have hmap := List.reverse_injective hrev
    have hdd := map_digitChar_inj _ _ (dec_digits_lt a a) (dec_digits_lt b b) hmap
    have ha' := of_dec_digits_eq a a le_rfl
    have hb' := of_dec_digits_eq b b le_rfl
    rw [hdd] at ha'
    exact ha'.symm.trans hb'

theorem arc_candidate_inj (p : MPath) : ∀ k1 k2, arc_candidate p k1 = arc_candidate p k2 →
    k1 = k2 := by
  intro k1 k2 h
  unfold arc_candidate at h
  have h1 := congrArg String.data h
  simp only [String.data_append] at h1
  have h2 := List.append_cancel_right h1
  have h3 := List.append_cancel_left h2
  exact decRepr_inj (String.ext h3)

theorem arc_candidate_free (used : List String) (p : MPath) :
    ∃ j, j ≤ used.length ∧ arc_candidate p (1 + j) ∉ used := by
  by_contra hcon
  push_neg at hcon
  have hinj : Function.Injective (fun j : Nat => arc_candidate p (1 + j)) := by
    intro x y hxy
    have := arc_candidate_inj p (1 + x) (1 + y) hxy
    omega
  have hnodup : ((List.range (used.length + 1)).map
      (fun j => arc_candidate p (1 + j))).Nodup :=
    (List.nodup_range _).map hinj
  have hsub : ((List.range (used.length + 1)).map
      (fun j => arc_candidate p (1 + j))).toFinset ⊆ used.toFinset := by
    intro x hx
    rw [List.mem_toFinset] at hx
    rw [List.mem_toFinset]
    obtain ⟨j, hj, rfl⟩ := List.mem_map.mp hx
    rw [List.mem_range] at hj
    exact hcon j (by omega)
  have hcard1 := List.toFinset_card_of_nodup hnodup
  have hcard2 := Finset.card_le_card hsub
  have hcard3 : used.toFinset.card ≤ used.length := List.toFinset_card_le used
  rw [hcard1, List.length_map, List.length_range] at hcard2
  omega

theorem fresh_arc_go_spec (p : MPath) (used : List String) :
    ∀ (fuel k : Nat), (∃ j, j ≤ fuel ∧ arc_candidate p (k + j) ∉ used) →
      ∃ K, k ≤ K ∧ fresh_arc_go p used fuel k = arc_candidate p K ∧
        arc_candidate p K ∉ used ∧ ∀ j, k ≤ j → j < K → arc_candidate p j ∈ used := by
  intro fuel
  induction fuel with
  | zero =>
    rintro k ⟨j, hj, hfree⟩
    have hj0 : j = 0 := by omega
    subst hj0
    exact ⟨k, le_rfl, rfl, by simpa using hfree, fun j h1 h2 => absurd h1 (by omega)⟩
  | succ f ih =>
    intro k hex
    by_cases hk : arc_candidate p k ∈ used
    · simp only [fresh_arc_go, if_pos hk]
      have hex2 : ∃ j, j ≤ f ∧ arc_candidate p (k + 1 + j) ∉ used := by
        obtain ⟨j, hj, hfree⟩ := hex
        cases j with
        | zero => exact absurd hk (by simpa using hfree)
        | succ jj =>
          refine ⟨jj, by omega, ?_⟩
          rw [show k + 1 + jj = k + (jj + 1) by omega]
          exact hfree
      obtain ⟨K, hK1, hK2, hK3, hK4⟩ := ih (k + 1) hex2
      refine ⟨K, by omega, hK2, hK3, ?_⟩
      intro j h1 h2
      by_cases hjk : j = k
      · rw [hjk]; exact hk
      · exact hK4 j (by omega) h2
    · simp only [fresh_arc_go, if_neg hk]
      exact ⟨k, le_rfl, rfl, hk, fun j h1 h2 => absurd h1 (by omega)⟩

theorem fresh_arcname_spec (used : List String) (p : MPath) :
    fresh_arcname used p ∉ used ∧
    ∃ K, 1 ≤ K ∧ fresh_arcname used p = arc_candidate p K ∧
      ∀ j, 1 ≤ j → j < K → arc_candidate p j ∈ used := by
  obtain ⟨j, hj, hfree⟩ := arc_candidate_free used p
  have hex : ∃ j2, j2 ≤ used.length + 1 ∧ arc_candidate p (1 + j2) ∉ used :=
    ⟨j, by omega, hfree⟩
  obtain ⟨K, hK1, hK2, hK3, hK4⟩ := fresh_arc_go_spec p used (used.length + 1) 1 hex
  constructor
  · unfold fresh_arcname
    rw [hK2]
    exact hK3
  · exact ⟨K, hK1, by unfold fresh_arcname; exact hK2, hK4⟩

theorem zip_go_length : ∀ (paths : List MPath) (used : List String),
    (zip_go paths used).length = paths.length := by
  intro paths
  induction paths with
  | nil => intro used; rfl
  | cons p rest ih =>
    intro used
    simp only [zip_go, List.length_cons, ih]

theorem zip_go_fresh : ∀ (paths : List MPath) (used : List String),
    (∀ a ∈ zip_go paths used, a ∉ used) ∧ (zip_go paths used).Nodup := by
  intro paths
  induction paths with
  | nil =>
    intro used
    exact ⟨by intro a ha; simp [zip_go] at ha, by simp [zip_go]⟩
  | cons p rest ih =>
    intro used
    have hgo : zip_go (p :: rest) used =
        (if p.name ∈ used then fresh_arcname used p else p.name) ::
          zip_go rest ((if p.name ∈ used then fresh_arcname used p else p.name) :: used) :=
      rfl
    rw [hgo]
    set arc := if p.name ∈ used then fresh_arcname used p else p.name with harc
    have harcfree : arc ∉ used := by
      rw [harc]
      split
      · exact (fresh_arcname_spec used p).1
      · next h => exact h
    obtain ⟨ih1, ih2⟩ := ih (arc :: used)
    constructor
    · intro a ha
      simp only [List.mem_cons] at ha
      rcases ha with rfl | ha
      · exact harcfree
      · intro hmem
        exact ih1 a ha (List.mem_cons_of_mem _ hmem)
    · rw [List.nodup_cons]
      refine ⟨?_, ih2⟩
      intro hmem
      exact ih1 arc hmem (List.mem_cons_self _ _)

theorem mem_cons_append_comm (x a : String) (t u : List String) :
    x ∈ (a :: t) ++ u ↔ x ∈ t ++ a :: u := by
  simp only [List.mem_append, List.mem_cons]
  tauto

theorem zip_go_get_spec : ∀ (paths : List MPath) (used : List String) (i : Nat) (q : MPath),
    paths.get? i = some q →
    ∃ arc, (zip_go paths used).get? i = some arc ∧
      (q.name ∉ (zip_go paths used).take i ++ used → arc = q.name) ∧
      (q.name ∈ (zip_go paths used).take i ++ used →
        arc ∉ ((zip_go paths used).take i ++ used) ∧
        ∃ K, 1 ≤ K ∧ arc = arc_candidate q K ∧
          ∀ j, 1 ≤ j → j < K →
            arc_candidate q j ∈ ((zip_go paths used).take i ++ used)) := by
  intro paths
  induction paths with
  | nil =>
    intro used i q h
    simp at h
  | cons p rest ih =>
    intro used i q h
    have hgo : zip_go (p :: rest) used =
        (if p.name ∈ used then fresh_arcname used p else p.name) ::
          zip_go rest ((if p.name ∈ used then fresh_arcname used p else p.name) :: used) :=
      rfl
    cases i with
    | zero =>
      have hq : p = q := by simpa using h
      subst hq
      rw [hgo]
      by_cases hp : p.name ∈ used
      · rw [if_pos hp]
        obtain ⟨hfree, K, hK1, hK2, hK4⟩ := fresh_arcname_spec used p
        refine ⟨fresh_arcname used p, rfl, ?_, ?_⟩
        · intro hnot
          exact absurd (by simpa using hp) hnot
        · intro _
          refine ⟨by simpa using hfree, K, hK1, hK2, ?_⟩
          intro j h1 h2
          simpa using hK4 j h1 h2
      · rw [if_neg hp]
        refine ⟨p.name, rfl, fun _ => rfl, ?_⟩
        intro hmem
        exact absurd (by simpa using hmem) hp
    | succ n =>
      have hrest : rest.get? n = some q := by simpa using h
      rw [hgo]
      set arc0 := if p.name ∈ used then fresh_arcname used p else p.name with harc0
      obtain ⟨arc, hget, hnot, hin⟩ := ih (arc0 :: used) n q hrest
      have hiff : ∀ x : String,
          x ∈ (arc0 :: zip_go rest (arc0 :: used)).take (n + 1) ++ used ↔
          x ∈ (zip_go rest (arc0 :: used)).take n ++ (arc0 :: used) := by
        intro x
        rw [List.take_succ_cons]
        exact mem_cons_append_comm x arc0 _ used
      refine ⟨arc, by simpa using hget, ?_, ?_⟩
      · intro hmem
        exact hnot (fun hc => hmem ((hiff q.name).mpr hc))
      · intro hmem
        obtain ⟨hfree, K, hK1, hK2, hK4⟩ := hin ((hiff q.name).mp hmem)
        refine ⟨fun hc => hfree ((hiff arc).mp hc), K, hK1, hK2, ?_⟩
        intro j h1 h2
        exact (hiff _).mpr (hK4 j h1 h2)

theorem successful_paths_mem (env : BatchEnv) (cols : BatchCols) (rows : List Row)
    (s : String) :
    s ∈ successful_paths env cols rows ↔
      ∃ row ∈ rows,
        str_lower (str_strip ((row_get row cols.status_column).getD "")) = "downloaded" ∧
        row_get row cols.path_column = some s ∧ s ≠ "" ∧ env.fileExists s = true := by
  unfold successful_paths
  rw [List.mem_filterMap]
  constructor
  · rintro ⟨row, hrow, hf⟩
    refine ⟨row, hrow, ?_⟩
    by_cases hst : str_lower (str_strip ((row_get row cols.status_column).getD "")) =
        "downloaded"
    · rw [if_pos hst] at hf
      cases hpv : row_get row cols.path_column with
      | none => rw [hpv] at hf; cases hf
      | some pv =>
        rw [hpv] at hf
        have hf2 : (if pv ≠ "" ∧ env.fileExists pv = true then some pv else none) =
            some s := hf
        split at hf2
        · next hc =>
          injection hf2 with hf3
          refine ⟨hst, ?_, ?_, ?_⟩
          · rw [hf3]
          · rw [← hf3]
            exact hc.1
          · rw [← hf3]
            exact hc.2
        · simp at hf2
    · rw [if_neg hst] at hf
      cases hf
  · rintro ⟨row, hrow, hst, hpv, hne, hex⟩
    refine ⟨row, hrow, ?_⟩
    rw [if_pos hst, hpv]
    show (if s ≠ "" ∧ env.fileExists s = true then some s else none) = some s
    rw [if_pos ⟨hne, hex⟩]

/-- C7: after a batch call the archive contains exactly the files of rows
whose status equals "downloaded" and whose recorded path exists at archive
time; each entry whose basename was already used is stored under the
smallest unused `stem_K.suffix` name (K = 1, 2, ...), an entry with a
fresh basename keeps it, and no two archive entries share a name. -/
theorem zip_archive_spec (env : BatchEnv) (cols : BatchCols) (rows0 : List Row)
    (n0 N : Nat) (skip : Bool) :
    (∀ s : String, s ∈ (process_batch env cols rows0 n0 N skip).zip_paths ↔
      ∃ row ∈ (process_batch env cols rows0 n0 N skip).rows,
        str_lower (str_strip ((row_get row cols.status_column).getD "")) = "downloaded" ∧
        row_get row cols.path_column = some s ∧ s ≠ "" ∧ env.fileExists s = true) ∧
    (process_batch env cols rows0 n0 N skip).zip_names.length =
      (process_batch env cols rows0 n0 N skip).zip_paths.length ∧
    (process_batch env cols rows0 n0 N skip).zip_names.Nodup ∧
    (∀ (i : Nat) (q : MPath),
      ((process_batch env cols rows0 n0 N skip).zip_paths.map env.pathOf).get? i = some q →
      ∃ arc, (process_batch env cols rows0 n0 N skip).zip_names.get? i = some arc ∧
        (q.name ∉ (process_batch env cols rows0 n0 N skip).zip_names.take i →
          arc = q.name) ∧
        (q.name ∈ (process_batch env cols rows0 n0 N skip).zip_names.take i →
          arc ∉ (process_batch env cols rows0 n0 N skip).zip_names.take i ∧
          ∃ K, 1 ≤ K ∧ arc = arc_candidate q K ∧
            ∀ j, 1 ≤ j → j < K → arc_candidate q j ∈
              (process_batch env cols rows0 n0 N skip).zip_names.take i)) := by
  have hzp : (process_batch env cols rows0 n0 N skip).zip_paths =
      successful_paths env cols (process_batch env cols rows0 n0 N skip).rows := rfl
  have hzn : (process_batch env cols rows0 n0 N skip).zip_names =
      zip_go ((process_batch env cols rows0 n0 N skip).zip_paths.map env.pathOf) [] := rfl
  refine ⟨?_, ?_, ?_, ?_⟩
  · intro s
    rw [hzp]
    exact successful_paths_mem env cols _ s
  · rw [hzn, zip_go_length, List.length_map]
  · rw [hzn]
    exact (zip_go_fresh _ []).2
  · intro i q hq
    obtain ⟨arc, hget, hnot, hin⟩ :=
      zip_go_get_spec ((process_batch env cols rows0 n0 N skip).zip_paths.map env.pathOf)
        [] i q hq
    rw [hzn]
    refine ⟨arc, hget, ?_, ?_⟩
    · intro hmem
      exact hnot (by simpa using hmem)
    · intro hmem
      obtain ⟨hfree, K, hK1, hK2, hK4⟩ := hin (by simpa using hmem)
      exact ⟨by simpa using hfree, K, hK1, hK2, fun j h1 h2 => by simpa using hK4 j h1 h2⟩

theorem zip_archive_spec_witness :
    ("downloads/clip.mp4" ∈ (process_batch benvZip cols0 [rowU1, rowU2] 0 0 false).zip_paths) ∧
    (process_batch benvZip cols0 [rowU1, rowU2] 0 0 false).zip_names.Nodup ∧
    (∃ arc,
      (process_batch benvZip cols0 [rowU1, rowU2] 0 0 false).zip_names.get? 1 = some arc ∧
      ((MPath.mk "other/clip.mp4" "clip" ".mp4").name ∉
          (process_batch benvZip cols0 [rowU1, rowU2] 0 0 false).zip_names.take 1 →
        arc = (MPath.mk "other/clip.mp4" "clip" ".mp4").name) ∧
      ((MPath.mk "other/clip.mp4" "clip" ".mp4").name ∈
          (process_batch benvZip cols0 [rowU1, rowU2] 0 0 false).zip_names.take 1 →
        arc ∉ (process_batch benvZip cols0 [rowU1, rowU2] 0 0 false).zip_names.take 1 ∧
        ∃ K, 1 ≤ K ∧ arc = arc_candidate (MPath.mk "other/clip.mp4" "clip" ".mp4") K ∧
          ∀ j, 1 ≤ j → j < K →
            arc_candidate (MPath.mk "other/clip.mp4" "clip" ".mp4") j ∈
              (process_batch benvZip cols0 [rowU1, rowU2] 0 0 false).zip_names.take 1)) :=
  have h := zip_archive_spec benvZip cols0 [rowU1, rowU2] 0 0 false
  ⟨(h.1 "downloads/clip.mp4").mpr (by decide),
   h.2.2.1,
   h.2.2.2 1 (MPath.mk "other/clip.mp4" "clip" ".mp4") (by decide)⟩
